import Mathlib

/-!
Verification development for the bill-calendar application's ingestion
pipeline: the Bill Extractor (src/lib/bill-parser.ts), the Bill Creation
Gate (src/app/api/bills/create/route.ts), the Ingestion Reconciler
(src/app/api/sync-gmail/route.ts), the Duplicate Cleanup Sweep
(cleanup-duplicates handler in src/app/api/sync-calendar), and the Stripe
webhook handler.  JavaScript numbers are modelled as rationals, JS
falsiness is modelled explicitly, and the database tables are modelled as
lists of rows.  The `DECIMAL(10, 2)` column `bills.amount` (schema in the
SQL migrations) rounds stored amounts to two decimals, modelled by
`round2`.
-/

/-- Curly brace characters, used when modelling the JSON-block regex. -/
def lbrace : Char := Char.ofNat 123

/-- Closing curly brace character. -/
def rbrace : Char := Char.ofNat 125

/-- A dynamically-typed JSON field value, as produced by `JSON.parse` in
JavaScript.  `undef` models an absent field. -/
inductive JsVal where
  | undef : JsVal
  | nullV : JsVal
  | boolV : Bool → JsVal
  | numV : ℚ → JsVal
  | strV : String → JsVal
deriving DecidableEq

/-- JavaScript truthiness of a `JsVal` (`Boolean(x)`). -/
def JsVal.truthy : JsVal → Bool
  | .undef => false
  | .nullV => false
  | .boolV b => b
  | .numV q => decide (q ≠ 0)
  | .strV s => decide (s ≠ "")

/-- JS `x || d` for an optional string (`null`, `undefined` and `""` are
falsy). -/
def jsStr (v : Option String) (d : String) : String :=
  match v with
  | some s => if s = "" then d else s
  | none => d

/-- JS `x || d` for an optional number (`null`, `undefined` and `0` are
falsy). -/
def jsNum (v : Option ℚ) (d : ℚ) : ℚ :=
  match v with
  | some q => if q = 0 then d else q
  | none => d

/-- JS `x || null` for an optional number: `0` collapses to `null`. -/
def jsNumOpt (v : Option ℚ) : Option ℚ :=
  match v with
  | some q => if q = 0 then none else some q
  | none => none

/-- JS `x || null` for an optional string: `""` collapses to `null`. -/
def jsStrOpt (v : Option String) : Option String :=
  match v with
  | some s => if s = "" then none else some s
  | none => none

/-- JS `parseInt` applied to a finite decimal number: truncation toward
zero. -/
def jsTrunc (q : ℚ) : ℤ :=
  if 0 ≤ q then ⌊q⌋ else -⌊-q⌋

/-- Rounding of a rational to the nearest integer, halves away from
zero, written with `mkRat` and integer arithmetic so that it evaluates in
the kernel; `halfAway_eq_round` below identifies it with `round` on
nonnegative inputs. -/
def halfAway (q : ℚ) : ℤ :=
  if 0 ≤ q then ⌊mkRat (2 * q.num + (q.den : ℤ)) (2 * q.den)⌋
  else -⌊mkRat (2 * (-q.num) + (q.den : ℤ)) (2 * q.den)⌋

/-- Model of `Number(x).toFixed(2)` re-read as a number, and the rounding performed
by the `DECIMAL(10, 2)` columns: rounding to two decimal places, halves
away from zero.  `round2_eq_round` below identifies it with
`(round (q * 100)) / 100` on nonnegative inputs. -/
def round2 (q : ℚ) : ℚ :=
  mkRat (halfAway (mkRat (100 * q.num) q.den)) 100

/-- The bound `x - 0.50`, written with `mkRat` so that it evaluates in the kernel
(`subHalf_eq` below). -/
def subHalf (x : ℚ) : ℚ := mkRat (2 * x.num - (x.den : ℤ)) (2 * x.den)

/-- The bound `x + 0.50`, written with `mkRat` so that it evaluates in the kernel
(`addHalf_eq` below). -/
def addHalf (x : ℚ) : ℚ := mkRat (2 * x.num + (x.den : ℤ)) (2 * x.den)

/-- ASCII lower-casing of a string (JS `toLowerCase`), written
structurally over the character list so that it evaluates in the
kernel. -/
def strLower (s : String) : String := String.mk (s.data.map Char.toLower)

/-- JS `trim`: strip leading and trailing whitespace. -/
def strTrim (s : String) : String :=
  String.mk
    (((s.data.dropWhile Char.isWhitespace).reverse.dropWhile
      Char.isWhitespace).reverse)

/-- Accumulator for `wsTokens`. -/
def wsTokensAux : List Char → List Char → List String
  | [], acc => if acc.isEmpty then [] else [String.mk acc.reverse]
  | c :: rest, acc =>
    if c.isWhitespace then
      if acc.isEmpty then wsTokensAux rest []
      else String.mk acc.reverse :: wsTokensAux rest []
    else wsTokensAux rest (c :: acc)

/-- JS `split(/\s+/)` on a trimmed string: the maximal nonempty
whitespace-free tokens, in order. -/
def wsTokens (s : String) : List String := wsTokensAux s.data []

/-- PostgREST `ilike` with a wildcard-free pattern: case-insensitive
string equality. -/
def ilikeEq (a b : String) : Bool :=
  strLower a == strLower b

/-- The fixed `BILL_CATEGORIES` enum from src/lib/supabase.ts. -/
def BILL_CATEGORIES : List String :=
  ["Utilities", "Subscriptions", "Insurance", "Housing", "Transportation",
   "Healthcare", "Credit Cards", "Food & Dining", "Entertainment", "Other"]

/-- The `ParsedBill` result record of the Bill Extractor
(src/lib/bill-parser.ts). -/
structure ParsedBill where
  isBill : Bool
  name : Option String
  amount : Option ℚ
  dueDay : Option ℚ
  category : String
  confidence : ℚ
  dueDateText : Option String
  amountText : Option String
deriving DecidableEq

/-- The deterministic "not a bill" fallback returned by
`parseBillFromEmail` on any failure (catch block of
src/lib/bill-parser.ts). -/
def defaultParsedBill : ParsedBill :=
  { isBill := false
    name := none
    amount := none
    dueDay := none
    category := "Other"
    confidence := 0
    dueDateText := none
    amountText := none }

/-- The raw JSON object decoded from the model's free-text response,
before field validation.  Every field is dynamically typed. -/
structure RawJson where
  isBill : JsVal
  name : JsVal
  amount : JsVal
  dueDay : JsVal
  category : JsVal
  confidence : JsVal
  dueDateText : JsVal
  amountText : JsVal
deriving DecidableEq

/-- Coercion of a truthy string field (`parsed.name || null` with the
TypeScript `string | null` typing): a nonempty string survives, anything
else collapses to `null`. -/
def coerceStr : JsVal → Option String
  | .strV s => if s = "" then none else some s
  | _ => none

/-- Field validation of the decoded JSON object: lines 111-133 of
src/lib/bill-parser.ts.  `dueDay` is kept only when it is a number in
[1, 31]; an unknown category defaults to `"Other"`; a non-numeric
confidence defaults to `0`. -/
def validateParsed (o : RawJson) : ParsedBill :=
  { isBill := o.isBill.truthy
    name := coerceStr o.name
    amount := match o.amount with
      | .numV q => some q
      | _ => none
    dueDay := match o.dueDay with
      | .numV q => if 1 ≤ q ∧ q ≤ 31 then some q else none
      | _ => none
    category := match o.category with
      | .strV s => if s ∈ BILL_CATEGORIES then s else "Other"
      | _ => "Other"
    confidence := match o.confidence with
      | .numV q => q
      | _ => 0
    dueDateText := coerceStr o.dueDateText
    amountText := coerceStr o.amountText }

/-- Extraction of the first JSON object from free text: the regex match
`/\x7b[\s\S]*\x7d/` of src/lib/bill-parser.ts, i.e. the substring
stretching from the first opening brace to the last closing brace, when
the latter follows the former. -/
def extractJsonBlock (s : String) : Option String :=
  let cs := s.toList
  match cs.findIdx? (fun c => c == lbrace) with
  | none => none
  | some i =>
    match cs.reverse.findIdx? (fun c => c == rbrace) with
    | none => none
    | some rj =>
      let j := cs.length - 1 - rj
      if i ≤ j then some (String.mk ((cs.drop i).take (j + 1 - i))) else none

/-- Outcome of the completion call in `parseBillFromEmail`: the transport
may throw, the first content block may not be text, or text is
returned. -/
inductive LLMResponse where
  | transportError : LLMResponse
  | nonText : LLMResponse
  | text : String → LLMResponse

/-- The Bill Extractor `parseBillFromEmail` (src/lib/bill-parser.ts,
lines 88-146), shallowly embedded over the outcome of the completion
call.  `jsonDecode` models the external `JSON.parse` builtin (`none` =
the parse throws).  Every `throw` inside the `try` block lands in the
catch block, which returns `defaultParsedBill`; the Lean function is
total, modelling that the extractor never raises. -/
def parseBillFromEmail (jsonDecode : String → Option RawJson) :
    LLMResponse → ParsedBill
  | .transportError => defaultParsedBill
  | .nonText => defaultParsedBill
  | .text s =>
    match extractJsonBlock s with
    | none => defaultParsedBill
    | some block =>
      match jsonDecode block with
      | none => defaultParsedBill
      | some o => validateParsed o

/-- A row of the `bills` table (schema: `bills` in the SQL setup script;
`amount DECIMAL(10, 2)`, `due_day INTEGER CHECK (1..31)`).  `id` models
the UUID primary key; `created_at` is an abstract timestamp. -/
structure Bill where
  id : ℕ
  user_id : String
  name : String
  amount : ℚ
  due_day : ℤ
  recurrence : String
  category : String
  notes : Option String
  is_active : Bool
  google_event_id : Option String
  created_at : ℕ
deriving DecidableEq

/-- The subscription-relevant columns of a `user_preferences` row.
`bills_limit` is a nullable integer (`null` = unlimited, for Pro). -/
structure Prefs where
  user_id : String
  email : Option String
  subscription_tier : String
  subscription_status : Option String
  bills_limit : Option ℕ
  stripe_customer_id : Option String
  stripe_subscription_id : Option String
  subscription_current_period_end : Option ℕ
deriving DecidableEq

/-- The JSON body of a request to POST /api/bills/create. -/
structure BillRequest where
  name : String
  amount : ℚ
  due_day : ℚ
  recurrence : Option String
  category : Option String
  notes : Option String
  google_event_id : Option String
deriving DecidableEq

/-- Outcome of the Bill Creation Gate: the 400 validation responses, the
403 quota response (carrying current count, limit and tier), or the 201
response with the inserted row. -/
inductive CreateResult where
  | missingFields : CreateResult
  | badAmount : CreateResult
  | badDueDay : CreateResult
  | badCategory : CreateResult
  | limitError : ℕ → ℕ → String → CreateResult
  | created : Bill → CreateResult
deriving DecidableEq

/-- Effective bills limit used by the gate: `prefs?.bills_limit ?? 10`
(line 106 of src/app/api/bills/create/route.ts).  The `??` operator
treats both a missing preferences row and an SQL-NULL `bills_limit` as
nullish, so the result is always a number. -/
def effectiveLimit (prefs : Option Prefs) : ℕ :=
  (prefs.bind Prefs.bills_limit).getD 10

/-- Tier string reported in the quota error:
`prefs?.subscription_tier || 'free'`. -/
def tierOf (prefs : Option Prefs) : String :=
  jsStr (prefs.map Prefs.subscription_tier) "free"

/-- The Bill Creation Gate, POST /api/bills/create
(src/app/api/bills/create/route.ts, lines 34-153): field validation,
quota check against the owner's active-bill count, then insertion.
`activeCount` is the result of the count query over the owner's active
bills; `freshId`/`now` model the generated primary key and timestamp of
the inserted row.  The inserted amount is rounded to two decimals by the
`DECIMAL(10, 2)` column. -/
def createBill (uid : String) (prefs : Option Prefs) (activeCount : ℕ)
    (freshId : ℕ) (now : ℕ) (req : BillRequest) : CreateResult :=
  if req.name = "" ∨ req.amount = 0 ∨ req.due_day = 0 then
    .missingFields
  else if req.amount ≤ 0 then
    .badAmount
  else
    let d := jsTrunc req.due_day
    if d < 1 ∨ 31 < d then
      .badDueDay
    else
      let cat := jsStr req.category "Other"
      if cat ∉ BILL_CATEGORIES then
        .badCategory
      else
        let lim := effectiveLimit prefs
        if lim ≤ activeCount then
          .limitError activeCount lim (tierOf prefs)
        else
          .created
            { id := freshId
              user_id := uid
              name := req.name
              amount := round2 req.amount
              due_day := d
              recurrence := jsStr req.recurrence "monthly"
              category := cat
              notes := jsStrOpt req.notes
              is_active := true
              google_event_id := jsStrOpt req.google_event_id
              created_at := now }

/-- A candidate email fed to the Ingestion Reconciler.  `parsed` is the
extraction result the batch parser produced for this email's id (`none`
models a missing entry in the `parsedBills` map); fixing it per email
captures a deterministic outcome of the extraction over a fixed set of
candidate emails. -/
structure Email where
  id : String
  subject : String
  sender : String
  parsed : Option ParsedBill
deriving DecidableEq

/-- A row of the `synced_emails` table (`bill_id` null = processed but
rejected). -/
structure SyncedEmail where
  user_id : String
  email_id : String
  email_subject : String
  email_from : String
  bill_id : Option ℕ
deriving DecidableEq

/-- The rejection reason computed by the Reconciler (lines 210-225 of
src/app/api/sync-gmail/route.ts); each constructor stands for one of the
produced strings, carrying the interpolated values. -/
inductive RejectionReason where
  | parseFailed : RejectionReason
  | notRecognized : RejectionReason
  | lowConfidence : ℚ → RejectionReason
  | noName : RejectionReason
  | noAmount : RejectionReason
  | invalidAmount : ℚ → RejectionReason
  | amountValidationFailed : RejectionReason
  | unknownReason : RejectionReason
deriving DecidableEq

/-- A row of the `rejected_bills` table. -/
structure RejectedRow where
  user_id : String
  email_id : String
  email_subject : String
  email_from : String
  parsed_name : Option String
  parsed_amount : Option ℚ
  parsed_due_day : Option ℚ
  parsed_category : String
  confidence : ℚ
  rejection_reason : RejectionReason
deriving DecidableEq

/-- Database state touched by one owner's Gmail sync, plus a counter
supplying fresh bill ids. -/
structure SyncState where
  bills : List Bill
  synced : List SyncedEmail
  rejected : List RejectedRow
  nextId : ℕ
deriving DecidableEq

/-- The check `hasValidAmount` (line 127 of src/app/api/sync-gmail/route.ts):
`parsed && typeof parsed.amount === 'number' && parsed.amount > 0`. -/
def hasValidAmount (p : ParsedBill) : Bool :=
  match p.amount with
  | some a => decide (0 < a)
  | none => false

/-- Acceptance policy of the Reconciler (line 129): is a bill, confidence
at least 70, truthy name, valid positive amount. -/
def acceptedB (p : ParsedBill) : Bool :=
  p.isBill && decide ((70 : ℚ) ≤ p.confidence) &&
    decide (p.name.getD "" ≠ "") && hasValidAmount p

/-- The duplicate search (lines 136-145): first existing row among the
owner's bills with a case-insensitive name match, amount within 50 cents
of the extracted amount normalized to two decimals, equal due day, and
`is_active = true`.  `.limit(1)` keeps the first row in list order. -/
def findExisting (uid : String) (bills : List Bill) (name : String)
    (amt : ℚ) (due : ℚ) : Option Bill :=
  (bills.filter (fun b =>
    b.user_id == uid && ilikeEq b.name name &&
    decide (subHalf (round2 amt) ≤ b.amount) &&
    decide (b.amount ≤ addHalf (round2 amt)) &&
    decide ((b.due_day : ℚ) = due) && b.is_active)).head?

/-- The notes field assembled for an auto-detected bill (lines
170-175). -/
def notesFor (e : Email) (p : ParsedBill) : String :=
  let parts := ["Auto-detected from: \"" ++ e.subject ++ "\""] ++
    (match jsStrOpt p.amountText with
     | some t => ["Amount found: \"" ++ t ++ "\""]
     | none => []) ++
    (match jsStrOpt p.dueDateText with
     | some t => ["Due date found: \"" ++ t ++ "\""]
     | none => [])
  String.intercalate " | " parts

/-- The creation request the Reconciler posts to /api/bills/create
(lines 164-176). -/
def mkRequest (e : Email) (p : ParsedBill) : BillRequest :=
  { name := p.name.getD ""
    amount := p.amount.getD 0
    due_day := jsNum p.dueDay 1
    recurrence := some "monthly"
    category := some p.category
    notes := some (notesFor e p)
    google_event_id := none }

/-- The rejection-reason chain (lines 211-225), checked in order: parse
failed, not recognized as bill, low confidence (with the actual score),
no name, then the amount cases. -/
def rejectionReasonOf : Option ParsedBill → RejectionReason
  | none => .parseFailed
  | some p =>
    if ¬ p.isBill then .notRecognized
    else if p.confidence < 70 then .lowConfidence p.confidence
    else if p.name.getD "" = "" then .noName
    else if ¬ hasValidAmount p then
      match p.amount with
      | none => .noAmount
      | some a => if a ≤ 0 then .invalidAmount a else .amountValidationFailed
    else .unknownReason

/-- The `rejected_bills` insert (lines 230-241), with the JS `||`
defaults on each parsed field. -/
def mkRejectedRow (uid : String) (e : Email) (p? : Option ParsedBill) :
    RejectedRow :=
  { user_id := uid
    email_id := e.id
    email_subject := e.subject
    email_from := e.sender
    parsed_name := jsStrOpt (p?.bind ParsedBill.name)
    parsed_amount := jsNumOpt (p?.bind ParsedBill.amount)
    parsed_due_day := jsNumOpt (p?.bind ParsedBill.dueDay)
    parsed_category := jsStr (p?.map ParsedBill.category) "Other"
    confidence := jsNum (p?.map ParsedBill.confidence) 0
    rejection_reason := rejectionReasonOf p? }

/-- A `synced_emails` insert for one processed email. -/
def mkSyncedRow (uid : String) (e : Email) (billId : Option ℕ) :
    SyncedEmail :=
  { user_id := uid
    email_id := e.id
    email_subject := e.subject
    email_from := e.sender
    bill_id := billId }

/-- The owner's active-bill count, as produced by the gate's count query
(`is_active = true`, `user_id = uid`). -/
def activeCountFor (uid : String) (bills : List Bill) : ℕ :=
  (bills.filter (fun b => b.user_id == uid && b.is_active)).length

/-- One iteration of the Reconciler's per-email loop (lines 111-254 of
src/app/api/sync-gmail/route.ts).  Accepted candidates reuse a matching
active bill or go through the Bill Creation Gate; a gate failure of any
kind (quota or validation) writes nothing, leaving the email unmarked for
retry; rejected candidates record a `rejected_bills` row and a
`synced_emails` row with null `bill_id`. -/
def processEmail (uid : String) (prefs : Option Prefs) (now : ℕ)
    (st : SyncState) (e : Email) : SyncState :=
  match e.parsed with
  | some p =>
    if acceptedB p then
      match findExisting uid st.bills (p.name.getD "") (p.amount.getD 0)
          (jsNum p.dueDay 1) with
      | some b =>
        { st with synced := st.synced ++ [mkSyncedRow uid e (some b.id)] }
      | none =>
        match createBill uid prefs (activeCountFor uid st.bills) st.nextId
            now (mkRequest e p) with
        | .created b =>
          { st with
              bills := st.bills ++ [b]
              synced := st.synced ++ [mkSyncedRow uid e (some b.id)]
              nextId := st.nextId + 1 }
        | _ => st
    else
      { st with
          rejected := st.rejected ++ [mkRejectedRow uid e (some p)]
          synced := st.synced ++ [mkSyncedRow uid e none] }
  | none =>
    { st with
        rejected := st.rejected ++ [mkRejectedRow uid e none]
        synced := st.synced ++ [mkSyncedRow uid e none] }

/-- Email ids already recorded in `synced_emails` for this owner. -/
def syncedIdsFor (uid : String) (st : SyncState) : List String :=
  (st.synced.filter (fun r => r.user_id == uid)).map SyncedEmail.email_id

/-- One Gmail sync run (POST /api/sync-gmail): drop every candidate whose
id already appears in `synced_emails` for this owner (line 83), then
process the remaining candidates in order. -/
def runSync (uid : String) (prefs : Option Prefs) (now : ℕ)
    (st : SyncState) (emails : List Email) : SyncState :=
  (emails.filter (fun e => ¬ (syncedIdsFor uid st).contains e.id)).foldl
    (processEmail uid prefs now) st

/-- Card-descriptor words removed when grouping (line 321 of the
cleanup-duplicates handler). -/
def cardDescriptors : List String :=
  ["card", "credit", "visa", "mastercard", "amex", "business", "cash",
   "ink", "freedom", "sapphire", "platinum", "rewards"]

/-- Main company keyword of a bill name: lowercased trimmed name, split
on whitespace, card descriptors removed, first remaining token (falling
back to the whole normalized name, mirroring `keywords[0] ||
normalizedName`). -/
def mainKeyword (name : String) : String :=
  let n := strLower (strTrim name)
  let ks := (wsTokens n).filter (fun w => ¬ cardDescriptors.contains w)
  match ks.head? with
  | some k => if k = "" then n else k
  | none => n

/-- Composite grouping key of the sweep: main keyword, amount normalized
to two decimals, due day (the string `keyword|amount|due_day` is modelled
as a tuple; two-decimal formatting of equal-scale values coincides with
`round2` equality). -/
def groupKey (b : Bill) : String × ℚ × ℤ :=
  (mainKeyword b.name, round2 b.amount, b.due_day)

/-- Insertion into the `billGroups` map: append to the first entry with
this key, else add a new entry at the end (JS `Map` preserves insertion
order). -/
def insertGroup (b : Bill) : List ((String × ℚ × ℤ) × List Bill) →
    List ((String × ℚ × ℤ) × List Bill)
  | [] => [(groupKey b, [b])]
  | (k, g) :: rest =>
    if k = groupKey b then (k, g ++ [b]) :: rest
    else (k, g) :: insertGroup b rest

/-- The grouping pass of the cleanup-duplicates handler (lines
312-331). -/
def billGroups (bills : List Bill) : List ((String × ℚ × ℤ) × List Bill) :=
  bills.foldl (fun gs b => insertGroup b gs) []

/-- Ids collected for deactivation (lines 333-348): for every group with
more than one member, every member except the first (the oldest, given
the ascending `created_at` query order). -/
def duplicateIds (bills : List Bill) : List ℕ :=
  (billGroups bills).flatMap (fun g =>
    if 1 < g.2.length then (g.2.drop 1).map Bill.id else [])

/-- The owner's active bills as read by the sweep's query (list order
models the `created_at` ascending order). -/
def activeBillsFor (uid : String) (bills : List Bill) : List Bill :=
  bills.filter (fun b => b.user_id == uid && b.is_active)

/-- The Duplicate Cleanup Sweep (POST cleanup-duplicates, lines 285-372
of the handler): load the owner's active bills oldest-first, group them,
and set `is_active = false` on every collected duplicate id. -/
def sweepState (uid : String) (bills : List Bill) : List Bill :=
  let dups := duplicateIds (activeBillsFor uid bills)
  bills.map (fun b =>
    if dups.contains b.id then { b with is_active := false } else b)

/-- A verified Stripe webhook event, after signature verification, with
the fields each handler reads. -/
inductive StripeEvent where
  | checkoutCompleted : Option String → Option String → StripeEvent
  | subscriptionUpdated : String → String → Option ℕ → StripeEvent
  | subscriptionDeleted : String → StripeEvent
  | paymentFailed : String → StripeEvent
  | paymentSucceeded : String → StripeEvent
  | otherEvent : StripeEvent

/-- The `.single()` lookup of a preferences row by Stripe customer id:
some row only when exactly one row matches. -/
def singleByCustomer (rows : List Prefs) (cid : String) : Option Prefs :=
  match rows.filter (fun p => p.stripe_customer_id == some cid) with
  | [r] => some r
  | _ => none

/-- The verified-event dispatch of the Stripe webhook handler
(src/unnamed/part_009, lines 63-226).  Every case that cannot find its
target row logs and skips; the endpoint acknowledges receipt in all
cases (modelled by totality: the new row list is always returned). -/
def handleStripeEvent (rows : List Prefs) : StripeEvent → List Prefs
  | .checkoutCompleted userId? subId? =>
    match userId? with
    | none => rows
    | some uid =>
      rows.map (fun p =>
        if p.user_id == uid then
          { p with
              subscription_tier := "pro"
              subscription_status := some "active"
              stripe_subscription_id := subId?
              bills_limit := none }
        else p)
  | .subscriptionUpdated cid status periodEnd =>
    match singleByCustomer rows cid with
    | none => rows
    | some r =>
      rows.map (fun p =>
        if p.user_id == r.user_id then
          { p with
              subscription_status := some status
              subscription_current_period_end := periodEnd }
        else p)
  | .subscriptionDeleted cid =>
    match singleByCustomer rows cid with
    | none => rows
    | some r =>
      rows.map (fun p =>
        if p.user_id == r.user_id then
          { p with
              subscription_tier := "free"
              subscription_status := some "canceled"
              bills_limit := some 10
              stripe_subscription_id := none }
        else p)
  | .paymentFailed cid =>
    match singleByCustomer rows cid with
    | none => rows
    | some r =>
      rows.map (fun p =>
        if p.user_id == r.user_id then
          { p with subscription_status := some "past_due" }
        else p)
  | .paymentSucceeded cid =>
    match singleByCustomer rows cid with
    | none => rows
    | some r =>
      rows.map (fun p =>
        if p.user_id == r.user_id &&
            p.subscription_status == some "past_due" then
          { p with subscription_status := some "active" }
        else p)
  | .otherEvent => rows

/-- The webhook endpoint's response to a verified event: it always
acknowledges receipt (`return NextResponse.json(... received: true ...)`,
and even the catch block answers 200). -/
def webhookAcknowledges (_rows : List Prefs) (_ev : StripeEvent) : Bool :=
  true


/-- Concrete fixture: a decoded model response with an in-range due day
and confidence. -/
def rawGood : RawJson :=
  { isBill := .boolV true, name := .strV "Chase", amount := .numV 2847,
    dueDay := .numV 15, category := .strV "Credit Cards",
    confidence := .numV 90, dueDateText := .nullV, amountText := .nullV }

/-- Concrete fixture: a decoded model response with a non-integral due
day (3/2) and an out-of-range confidence (150). -/
def rawBad : RawJson :=
  { isBill := .boolV true, name := .strV "Netflix", amount := .numV 10,
    dueDay := .numV (mkRat 3 2), category := .strV "Utilities",
    confidence := .numV 150, dueDateText := .nullV, amountText := .nullV }

/-- Concrete fixture: a pro-tier preferences row with the unlimited
(`null`) bills limit. -/
def proPrefs1 : Prefs :=
  { user_id := "user-1", email := none, subscription_tier := "pro",
    subscription_status := some "active", bills_limit := none,
    stripe_customer_id := some "cus_1",
    stripe_subscription_id := some "sub_1",
    subscription_current_period_end := none }

/-- Concrete fixture: a field-valid bill creation request. -/
def reqNetflix : BillRequest :=
  { name := "Netflix", amount := 15, due_day := 15,
    recurrence := some "monthly", category := some "Subscriptions",
    notes := none, google_event_id := none }

/-- Concrete fixture: the empty sync state. -/
def st0 : SyncState := { bills := [], synced := [], rejected := [], nextId := 0 }

/-- Concrete fixture: an active bill of owner u1 (netflix, $10.50, due
day 1). -/
def bill0 : Bill :=
  { id := 99, user_id := "u1", name := "netflix", amount := mkRat 21 2,
    due_day := 1, recurrence := "monthly", category := "Subscriptions",
    notes := none, is_active := true, google_event_id := none,
    created_at := 0 }

/-- Concrete fixture: an accepted extraction (Netflix, $10.00, due day
1, confidence 90). -/
def pA : ParsedBill :=
  { isBill := true, name := some "Netflix", amount := some 10,
    dueDay := some 1, category := "Subscriptions", confidence := 90,
    dueDateText := none, amountText := none }

/-- Concrete fixture: an accepted extraction (netflix, $9.50, due day 1,
confidence 90); its name matches `pA` case-insensitively and its amount
is within $0.50 of `pA`. -/
def pB : ParsedBill :=
  { isBill := true, name := some "netflix", amount := some (mkRat 19 2),
    dueDay := some 1, category := "Subscriptions", confidence := 90,
    dueDateText := none, amountText := none }

/-- Concrete fixture: source email of `pA`. -/
def eA : Email :=
  { id := "mA", subject := "Your Netflix bill", sender := "info@netflix.com",
    parsed := some pA }

/-- Concrete fixture: source email of `pB`. -/
def eB : Email :=
  { id := "mB", subject := "Netflix payment due", sender := "billing@netflix.com",
    parsed := some pB }

/-- Concrete fixture: sync state holding only `bill0`. -/
def st3 : SyncState := { bills := [bill0], synced := [], rejected := [], nextId := 100 }

/-- Concrete fixture: an accepted extraction for the idempotence witness
(TXU Energy, $162, due day 7, confidence 95). -/
def pW : ParsedBill :=
  { isBill := true, name := some "TXU Energy", amount := some 162,
    dueDay := some 7, category := "Utilities", confidence := 95,
    dueDateText := some "due Jan 7", amountText := some "162.00" }

/-- Concrete fixture: source email of `pW`. -/
def emW : Email :=
  { id := "mW", subject := "Your TXU Energy bill", sender := "txu@txu.com",
    parsed := some pW }

/-- Concrete fixture: a low-confidence extraction (confidence 40). -/
def pLow : ParsedBill :=
  { isBill := true, name := some "Maybe Corp", amount := some 20,
    dueDay := some 3, category := "Other", confidence := 40,
    dueDateText := none, amountText := none }

/-- Concrete fixture: source email of `pLow`. -/
def emLow : Email :=
  { id := "mL", subject := "Possible invoice", sender := "x@y.com",
    parsed := some pLow }

/-- Concrete fixture: the older Chase bill of the sweep example
($50.00, due day 15, created at t0 = 0). -/
def chase1 : Bill :=
  { id := 1, user_id := "u1", name := "Chase Credit Card", amount := 50,
    due_day := 15, recurrence := "monthly", category := "Credit Cards",
    notes := none, is_active := true, google_event_id := none,
    created_at := 0 }

/-- Concrete fixture: the newer Chase bill of the sweep example
($50.00, due day 15, created at t1 = 1 > t0). -/
def chase2 : Bill :=
  { id := 2, user_id := "u1", name := "Chase Ink Business Cash Visa",
    amount := 50, due_day := 15, recurrence := "monthly",
    category := "Credit Cards", notes := none, is_active := true,
    google_event_id := none, created_at := 1 }

/-- Concrete fixture: a preferences row with an active pro
subscription for Stripe customer cus_1. -/
def prefsRowA : Prefs :=
  { user_id := "uA", email := none, subscription_tier := "pro",
    subscription_status := some "active", bills_limit := none,
    stripe_customer_id := some "cus_1",
    stripe_subscription_id := some "sub_1",
    subscription_current_period_end := none }

/-- Concrete fixture: a preferences row in past_due status for Stripe
customer cus_2. -/
def prefsRowP : Prefs :=
  { user_id := "uP", email := none, subscription_tier := "pro",
    subscription_status := some "past_due", bills_limit := none,
    stripe_customer_id := some "cus_2",
    stripe_subscription_id := some "sub_2",
    subscription_current_period_end := none }

/-- The output discipline guaranteed by the Bill Extractor for every
result it returns (see C6): the category is a member of the fixed enum
and a present due day lies in [1, 31]. -/
def wellFormedParsed (p : ParsedBill) : Prop :=
  p.category ∈ BILL_CATEGORIES ∧ ∀ q, p.dueDay = some q → 1 ≤ q ∧ q ≤ 31

/-- The configuration in which the Reconciler leaves an email unmarked:
its candidate is accepted, no active bill of the owner matches the
duplicate search, and the quota is exhausted, so the creation gate
rejects and no row of any kind is written (the email is left for retry
after upgrade). -/
def SkipAt (uid : String) (prefs : Option Prefs) (st : SyncState)
    (e : Email) : Prop :=
  ∃ p, e.parsed = some p ∧ acceptedB p = true ∧
    findExisting uid st.bills (p.name.getD "") (p.amount.getD 0)
      (jsNum p.dueDay 1) = none ∧
    effectiveLimit prefs ≤ activeCountFor uid st.bills

/-- Lookup of a group by key in the association list built by
`insertGroup` (proof-side accessor for the `billGroups` map). -/
def entryFor (k : String × ℚ × ℤ) :
    List ((String × ℚ × ℤ) × List Bill) → List Bill
  | [] => []
  | (k2, g) :: rest => if k2 = k then g else entryFor k rest

/-- Helper: the numerator of a rational is the value times the
denominator. -/
theorem num_eq_mul_den (q : ℚ) : (q.num : ℚ) = q * q.den :=
  (div_eq_iff (by exact_mod_cast q.den_nz)).mp (Rat.num_div_den q)

/-- Helper: `halfAway` agrees with `round` on nonnegative inputs. -/
theorem halfAway_eq_round (q : ℚ) (hq : 0 ≤ q) : halfAway q = round q := by
  rw [halfAway, if_pos hq, round_eq]
  congr 1
  rw [Rat.mkRat_eq_div]
  have hd : (q.den : ℚ) ≠ 0 := by
    exact_mod_cast q.den_nz
  push_cast
  rw [div_eq_iff (by exact mul_ne_zero two_ne_zero hd)]
  linear_combination 2 * num_eq_mul_den q

/-- Helper: `round2` agrees with `round (q * 100) / 100` on nonnegative
inputs. -/
theorem round2_eq_round (q : ℚ) (hq : 0 ≤ q) :
    round2 q = ((round (q * 100) : ℤ) : ℚ) / 100 := by
  rw [round2, Rat.mkRat_eq_div]
  have hd : (q.den : ℚ) ≠ 0 := by
    exact_mod_cast q.den_nz
  have hm : mkRat (100 * q.num) q.den = q * 100 := by
    rw [Rat.mkRat_eq_div]
    push_cast
    rw [div_eq_iff hd]
    linear_combination 100 * num_eq_mul_den q
  rw [hm, halfAway_eq_round _ (by positivity)]
  norm_num

/-- Helper: `subHalf x = x - 1/2`. -/
theorem subHalf_eq (x : ℚ) : subHalf x = x - 1/2 := by
  rw [subHalf, Rat.mkRat_eq_div]
  have hd : (x.den : ℚ) ≠ 0 := by
    exact_mod_cast x.den_nz
  push_cast
  rw [div_eq_iff (by exact mul_ne_zero two_ne_zero hd)]
  linear_combination 2 * num_eq_mul_den x

/-- Helper: `addHalf x = x + 1/2`. -/
theorem addHalf_eq (x : ℚ) : addHalf x = x + 1/2 := by
  rw [addHalf, Rat.mkRat_eq_div]
  have hd : (x.den : ℚ) ≠ 0 := by
    exact_mod_cast x.den_nz
  push_cast
  rw [div_eq_iff (by exact mul_ne_zero two_ne_zero hd)]
  linear_combination 2 * num_eq_mul_den x

/-- Helper: two-decimal rounding preserves the $0.50 tolerance band: if
two nonnegative amounts differ by at most 1/2, the rounding of the first
lies within [rounded second - 1/2, rounded second + 1/2]. -/
theorem round2_close (a1 a2 : ℚ) (h1 : 0 ≤ a1) (h2 : 0 ≤ a2)
    (h : |a1 - a2| ≤ 1/2) :
    subHalf (round2 a2) ≤ round2 a1 ∧ round2 a1 ≤ addHalf (round2 a2) := by
  rw [subHalf_eq, addHalf_eq, round2_eq_round _ h1, round2_eq_round _ h2]
  obtain ⟨hl, hr⟩ := abs_le.mp h
  have hm1 : ((round (a1 * 100) : ℤ) : ℚ) ≤ a1 * 100 + 1/2 := by
    rw [round_eq]
    exact_mod_cast Int.floor_le (a1 * 100 + 1/2)
  have hm2 : a1 * 100 + 1/2 < ((round (a1 * 100) : ℤ) : ℚ) + 1 := by
    rw [round_eq]
    exact_mod_cast Int.lt_floor_add_one (a1 * 100 + 1/2)
  have hn1 : ((round (a2 * 100) : ℤ) : ℚ) ≤ a2 * 100 + 1/2 := by
    rw [round_eq]
    exact_mod_cast Int.floor_le (a2 * 100 + 1/2)
  have hn2 : a2 * 100 + 1/2 < ((round (a2 * 100) : ℤ) : ℚ) + 1 := by
    rw [round_eq]
    exact_mod_cast Int.lt_floor_add_one (a2 * 100 + 1/2)
  have hle1 : round (a1 * 100) - round (a2 * 100) ≤ 50 := by
    have hlt : ((round (a1 * 100) - round (a2 * 100) : ℤ) : ℚ) < 51 := by
      push_cast
      linarith
    have : round (a1 * 100) - round (a2 * 100) < 51 := by exact_mod_cast hlt
    omega
  have hle2 : round (a2 * 100) - round (a1 * 100) ≤ 50 := by
    have hlt : ((round (a2 * 100) - round (a1 * 100) : ℤ) : ℚ) < 51 := by
      push_cast
      linarith
    have : round (a2 * 100) - round (a1 * 100) < 51 := by exact_mod_cast hlt
    omega
  have hc1 : ((round (a1 * 100) : ℤ) : ℚ) - ((round (a2 * 100) : ℤ) : ℚ) ≤ 50 := by
    exact_mod_cast hle1
  have hc2 : ((round (a2 * 100) : ℤ) : ℚ) - ((round (a1 * 100) : ℤ) : ℚ) ≤ 50 := by
    exact_mod_cast hle2
  constructor
  · linarith
  · linarith

/-- Helper: an integer cast into ℚ truncates to itself. -/
theorem jsTrunc_intCast (z : ℤ) : jsTrunc (z : ℚ) = z := by
  unfold jsTrunc
  by_cases h : (0 : ℚ) ≤ (z : ℚ)
  · rw [if_pos h, Int.floor_intCast]
  · rw [if_neg h, show -(z : ℚ) = ((-z : ℤ) : ℚ) by push_cast; ring,
      Int.floor_intCast]
    exact neg_neg z

/-- C5: Extractor totality.  For every outcome of the completion call
other than a successfully decoded JSON object — transport error, a
non-text content block, text containing no brace-delimited JSON block,
or a block on which `JSON.parse` throws — `parseBillFromEmail` returns
exactly the deterministic default result (isBill false, null fields,
category "Other", confidence 0).  The embedding is a total function and
every failure lands in the catch-all default, modelling that extraction
failure never raises past the Extractor. -/
theorem C5_extractor_totality (jsonDecode : String → Option RawJson)
    (resp : LLMResponse)
    (h : resp = .transportError ∨ resp = .nonText ∨
      (∃ s, resp = .text s ∧ extractJsonBlock s = none) ∨
      (∃ s block, resp = .text s ∧ extractJsonBlock s = some block ∧
        jsonDecode block = none)) :
    parseBillFromEmail jsonDecode resp = defaultParsedBill := by
  rcases h with h | h | ⟨s, rfl, h⟩ | ⟨s, block, rfl, h1, h2⟩
  · subst h; rfl
  · subst h; rfl
  · simp [parseBillFromEmail, h]
  · simp [parseBillFromEmail, h1, h2]

/-- Witness for C5 at a concrete input: a transport error yields exactly
the default result. -/
theorem C5_extractor_totality_witness :
    (LLMResponse.transportError = LLMResponse.transportError ∨
      LLMResponse.transportError = LLMResponse.nonText ∨
      (∃ s, LLMResponse.transportError = LLMResponse.text s ∧
        extractJsonBlock s = none) ∨
      (∃ s block, LLMResponse.transportError = LLMResponse.text s ∧
        extractJsonBlock s = some block ∧
        (fun (_ : String) => (none : Option RawJson)) block = none)) ∧
    parseBillFromEmail (fun _ => none) LLMResponse.transportError =
      defaultParsedBill :=
  ⟨Or.inl rfl,
    C5_extractor_totality (fun _ => none) LLMResponse.transportError
      (Or.inl rfl)⟩

/-- C6 counterexample: the model can return a non-integral due day and
an out-of-range confidence, and the extractor passes both through.  On
the decoded object `rawBad` (dueDay 3/2, confidence 150) the result has
`dueDay = some (3/2)` — which equals no integer — and
`confidence = 150 > 100`, refuting "dueDay is null or an integer in
1..31" and "confidence lies in 0..100" as stated. -/
theorem C6_output_domain_counterexample :
    (parseBillFromEmail (fun _ => some rawBad) (.text "\x7b\x7d")).dueDay =
      some (mkRat 3 2) ∧
    (∀ z : ℤ, (mkRat 3 2 : ℚ) ≠ (z : ℚ)) ∧
    (parseBillFromEmail (fun _ => some rawBad) (.text "\x7b\x7d")).confidence =
      150 ∧
    ¬ ((parseBillFromEmail (fun _ => some rawBad)
        (.text "\x7b\x7d")).confidence ≤ 100) := by
  refine ⟨by decide, ?_, by decide, by decide⟩
  intro z hz
  have h1 : (1 : ℚ) < mkRat 3 2 := by decide
  have h2 : (mkRat 3 2 : ℚ) < 2 := by decide
  rw [hz] at h1 h2
  have hz1 : (1 : ℤ) < z := by exact_mod_cast h1
  have hz2 : z < 2 := by exact_mod_cast h2
  omega

/-- C6 (amended): for every successfully decoded model response, the
result of `parseBillFromEmail` has `dueDay` null or a number in the
range 1..31 (not necessarily an integer — integrality is not checked),
`category` a member of the fixed enum (unknown categories defaulting to
"Other"), and `confidence` equal to the raw value whenever the model
returned a number — with no clamping to 0..100 — and 0 otherwise. -/
theorem C6_output_domain_amended (jsonDecode : String → Option RawJson)
    (s block : String) (o : RawJson)
    (h1 : extractJsonBlock s = some block)
    (h2 : jsonDecode block = some o) :
    ((parseBillFromEmail jsonDecode (.text s)).dueDay = none ∨
      ∃ q, (parseBillFromEmail jsonDecode (.text s)).dueDay = some q ∧
        1 ≤ q ∧ q ≤ 31) ∧
    (parseBillFromEmail jsonDecode (.text s)).category ∈ BILL_CATEGORIES ∧
    (parseBillFromEmail jsonDecode (.text s)).confidence =
      (match o.confidence with | .numV q => q | _ => 0) := by
  have hr : parseBillFromEmail jsonDecode (.text s) = validateParsed o := by
    simp [parseBillFromEmail, h1, h2]
  rw [hr]
  refine ⟨?_, ?_, rfl⟩
  · have hdue : (validateParsed o).dueDay = (match o.dueDay with
      | JsVal.numV q => if 1 ≤ q ∧ q ≤ 31 then some q else none
      | _ => none) := rfl
    rw [hdue]
    rcases o.dueDay with _ | _ | b | q | t
    · exact Or.inl rfl
    · exact Or.inl rfl
    · exact Or.inl rfl
    · by_cases hq : 1 ≤ q ∧ q ≤ 31
      · exact Or.inr ⟨q, if_pos hq, hq.1, hq.2⟩
      · exact Or.inl (if_neg hq)
    · exact Or.inl rfl
  · have hcat : (validateParsed o).category = (match o.category with
      | JsVal.strV s => if s ∈ BILL_CATEGORIES then s else "Other"
      | _ => "Other") := rfl
    rw [hcat]
    rcases o.category with _ | _ | b | q | t
    · exact (show ("Other" : String) ∈ BILL_CATEGORIES by decide)
    · exact (show ("Other" : String) ∈ BILL_CATEGORIES by decide)
    · exact (show ("Other" : String) ∈ BILL_CATEGORIES by decide)
    · exact (show ("Other" : String) ∈ BILL_CATEGORIES by decide)
    · show (if t ∈ BILL_CATEGORIES then t else "Other") ∈ BILL_CATEGORIES
      by_cases ht : t ∈ BILL_CATEGORIES
      · rw [if_pos ht]; exact ht
      · rw [if_neg ht]
        exact (show ("Other" : String) ∈ BILL_CATEGORIES by decide)

/-- Witness for C6 (amended) at a concrete input (`rawGood`). -/
theorem C6_output_domain_amended_witness :
    (extractJsonBlock "\x7b\x7d" = some "\x7b\x7d" ∧
      (fun (_ : String) => some rawGood) "\x7b\x7d" = some rawGood) ∧
    ((parseBillFromEmail (fun _ => some rawGood) (.text "\x7b\x7d")).dueDay =
        none ∨
      ∃ q, (parseBillFromEmail (fun _ => some rawGood)
          (.text "\x7b\x7d")).dueDay = some q ∧ 1 ≤ q ∧ q ≤ 31) ∧
    (parseBillFromEmail (fun _ => some rawGood)
      (.text "\x7b\x7d")).category ∈ BILL_CATEGORIES ∧
    (parseBillFromEmail (fun _ => some rawGood)
      (.text "\x7b\x7d")).confidence =
      (match rawGood.confidence with | .numV q => q | _ => 0) :=
  ⟨⟨by decide, rfl⟩,
    C6_output_domain_amended (fun _ => some rawGood) "\x7b\x7d" "\x7b\x7d"
      rawGood (by decide) rfl⟩

/-- C1: the Bill Creation Gate at the claim's pro/unlimited input.  For
an owner whose preferences row has `subscription_tier = "pro"` and
`bills_limit = null` (unlimited) and who already holds 10 active bills, a
field-valid creation request is rejected with the quota error (count 10,
limit 10, tier "pro") instead of succeeding: `prefs?.bills_limit ?? 10`
(line 106 of src/app/api/bills/create/route.ts) coalesces the SQL-NULL
unlimited marker to 10, so the `billsLimit !== null` guard on line 107
never sees a null, contradicting the claim and the route's own header
comment ("Pro Tier: Unlimited bills (bills_limit = null)"). -/
theorem C1_quota_gate_pro_null_bug :
    createBill "user-1" (some proPrefs1) 10 100 0 reqNetflix =
      CreateResult.limitError 10 10 "pro" := by
  decide

/-- Helper: membership in the synced-id list, unfolded. -/
theorem mem_syncedIdsFor (uid x : String) (st : SyncState) :
    x ∈ syncedIdsFor uid st ↔
      ∃ r ∈ st.synced, r.user_id = uid ∧ r.email_id = x := by
  simp only [syncedIdsFor, List.mem_map, List.mem_filter, beq_iff_eq]
  constructor
  · rintro ⟨r, ⟨hr, hu⟩, he⟩
    exact ⟨r, hr, hu, he⟩
  · rintro ⟨r, hr, hu, he⟩
    exact ⟨r, ⟨hr, hu⟩, he⟩

/-- Helper: an email whose id is recorded for this owner is dropped by
the sync's freshness filter. -/
theorem notin_filter_of_synced (uid : String) (st : SyncState) (e : Email)
    (h : e.id ∈ syncedIdsFor uid st) (emails2 : List Email) :
    e ∉ emails2.filter (fun e2 =>
      ¬ (syncedIdsFor uid st).contains e2.id) := by
  intro hmem
  rw [List.mem_filter] at hmem
  have h2 := hmem.2
  simp only [decide_eq_true_eq] at h2
  exact h2 (List.elem_eq_true_of_mem h)

/-- C4: Low-confidence rejection.  For every extracted candidate with
confidence below 70, the Reconciler creates no Bill row from that email
— and, because a `synced_emails` row with null `bill_id` is written, the
email is dropped by the freshness filter of every later sync, so no Bill
is ever created from it.  A `rejected_bills` row is recorded whose
reason is computed by the ordered chain of `rejectionReasonOf` (parse
failed, then isBill false, then low confidence carrying the actual
score, then missing name, then missing/invalid amount): when `isBill` is
true the reason is `lowConfidence` with the actual score; when `isBill`
is false the earlier check fires instead. -/
theorem C4_low_confidence_rejection (uid : String) (prefs : Option Prefs)
    (now : ℕ) (st : SyncState) (e : Email) (p : ParsedBill)
    (hp : e.parsed = some p) (hconf : p.confidence < 70) :
    (processEmail uid prefs now st e).bills = st.bills ∧
    (processEmail uid prefs now st e).rejected =
      st.rejected ++ [mkRejectedRow uid e (some p)] ∧
    (processEmail uid prefs now st e).synced =
      st.synced ++ [mkSyncedRow uid e none] ∧
    (mkRejectedRow uid e (some p)).rejection_reason =
      rejectionReasonOf (some p) ∧
    (p.isBill = true →
      rejectionReasonOf (some p) =
        RejectionReason.lowConfidence p.confidence) ∧
    (p.isBill = false →
      rejectionReasonOf (some p) = RejectionReason.notRecognized) ∧
    (∀ emails2 : List Email, e ∈ emails2 →
      e ∉ emails2.filter (fun e2 =>
        ¬ (syncedIdsFor uid (processEmail uid prefs now st e)).contains
          e2.id)) := by
  have hna : ¬ ((70 : ℚ) ≤ p.confidence) := not_le.mpr hconf
  have hacc : acceptedB p = false := by
    simp [acceptedB, hna]
  have hstep : processEmail uid prefs now st e =
      { st with rejected := st.rejected ++ [mkRejectedRow uid e (some p)],
                synced := st.synced ++ [mkSyncedRow uid e none] } := by
    simp [processEmail, hp, hacc]
  refine ⟨by rw [hstep], by rw [hstep], by rw [hstep], rfl, ?_, ?_, ?_⟩
  · intro hb
    simp [rejectionReasonOf, hb, hconf]
  · intro hb
    simp [rejectionReasonOf, hb]
  · intro emails2 hmem
    apply notin_filter_of_synced
    rw [hstep, mem_syncedIdsFor]
    exact ⟨mkSyncedRow uid e none, by simp [mkSyncedRow], rfl, rfl⟩

/-- Witness for C4 at a concrete input: the low-confidence candidate
`pLow` (confidence 40) in the empty state. -/
theorem C4_low_confidence_rejection_witness :
    (emLow.parsed = some pLow ∧ pLow.confidence < 70) ∧
    (processEmail "u1" none 0 st0 emLow).bills = st0.bills ∧
    (processEmail "u1" none 0 st0 emLow).rejected =
      st0.rejected ++ [mkRejectedRow "u1" emLow (some pLow)] ∧
    rejectionReasonOf (some pLow) =
      RejectionReason.lowConfidence pLow.confidence :=
  ⟨⟨rfl, by decide⟩,
    (C4_low_confidence_rejection "u1" none 0 st0 emLow pLow rfl
      (by decide)).1,
    (C4_low_confidence_rejection "u1" none 0 st0 emLow pLow rfl
      (by decide)).2.1,
    (C4_low_confidence_rejection "u1" none 0 st0 emLow pLow rfl
      (by decide)).2.2.2.2.1 rfl⟩

/-- Helper: a successful `.single()` customer lookup returns a row of
the table carrying that Stripe customer id. -/
theorem singleByCustomer_mem (rows : List Prefs) (cid : String) (r : Prefs)
    (h : singleByCustomer rows cid = some r) :
    r ∈ rows ∧ r.stripe_customer_id = some cid := by
  unfold singleByCustomer at h
  rcases hf : rows.filter (fun p => p.stripe_customer_id == some cid)
    with _ | ⟨a, l⟩
  · rw [hf] at h
    cases h
  · rcases l with _ | ⟨b, l2⟩
    · rw [hf] at h
      injection h with hh
      subst hh
      have ha : a ∈ rows.filter (fun p => p.stripe_customer_id == some cid) := by
        rw [hf]
        exact List.mem_cons_self a []
      rw [List.mem_filter] at ha
      refine ⟨ha.1, ?_⟩
      have hb := ha.2
      rwa [beq_iff_eq] at hb
    · rw [hf] at h
      cases h

/-- C8: Subscription-deleted transition.  For every verified
`customer.subscription.deleted` event whose customer id matches exactly
one preferences row, the handler sets that row to tier "free", status
"canceled", bills_limit 10 and a cleared subscription id, leaves every
other owner's row unchanged, and the updated row is present in the
result; when no row matches, the table is left unchanged; in every case
the endpoint acknowledges receipt. -/
theorem C8_subscription_deleted (rows : List Prefs) (cid : String)
    (r : Prefs) (hmatch : singleByCustomer rows cid = some r) :
    (∀ p ∈ handleStripeEvent rows (.subscriptionDeleted cid),
      p.user_id = r.user_id →
        p.subscription_tier = "free" ∧
        p.subscription_status = some "canceled" ∧
        p.bills_limit = some 10 ∧
        p.stripe_subscription_id = none) ∧
    (∀ p ∈ rows, p.user_id ≠ r.user_id →
      p ∈ handleStripeEvent rows (.subscriptionDeleted cid)) ∧
    { r with subscription_tier := "free",
             subscription_status := some "canceled",
             bills_limit := some 10,
             stripe_subscription_id := none } ∈
      handleStripeEvent rows (.subscriptionDeleted cid) ∧
    (∀ (rows2 : List Prefs) (cid2 : String),
      singleByCustomer rows2 cid2 = none →
        handleStripeEvent rows2 (.subscriptionDeleted cid2) = rows2) ∧
    webhookAcknowledges rows (.subscriptionDeleted cid) = true := by
  have hhandle : handleStripeEvent rows (.subscriptionDeleted cid) =
      rows.map (fun p =>
        if p.user_id == r.user_id then
          { p with subscription_tier := "free",
                   subscription_status := some "canceled",
                   bills_limit := some 10,
                   stripe_subscription_id := none }
        else p) := by
    simp [handleStripeEvent, hmatch]
  refine ⟨?_, ?_, ?_, ?_, rfl⟩
  · intro p hp hup
    rw [hhandle] at hp
    obtain ⟨q, hq, rfl⟩ := List.mem_map.mp hp
    by_cases h : q.user_id == r.user_id
    · simp [h]
    · rw [if_neg h] at hup ⊢
      exact absurd (beq_iff_eq.mpr hup) h
  · intro p hp hne
    rw [hhandle]
    have hfp : (if p.user_id == r.user_id then
        { p with subscription_tier := "free",
                 subscription_status := some "canceled",
                 bills_limit := some 10,
                 stripe_subscription_id := none }
      else p) = p := by
      rw [if_neg]
      simp [hne]
    exact hfp ▸ List.mem_map_of_mem _ hp
  · have hr := (singleByCustomer_mem rows cid r hmatch).1
    rw [hhandle]
    have : (if r.user_id == r.user_id then
        { r with subscription_tier := "free",
                 subscription_status := some "canceled",
                 bills_limit := some 10,
                 stripe_subscription_id := none }
      else r) =
        { r with subscription_tier := "free",
                 subscription_status := some "canceled",
                 bills_limit := some 10,
                 stripe_subscription_id := none } := by
      rw [if_pos (beq_iff_eq.mpr rfl)]
    exact this ▸ List.mem_map_of_mem _ hr
  · intro rows2 cid2 hnone
    simp [handleStripeEvent, hnone]

/-- Witness for C8 at a concrete input: the single row for customer
cus_1 is downgraded to the free tier. -/
theorem C8_subscription_deleted_witness :
    singleByCustomer [prefsRowA] "cus_1" = some prefsRowA ∧
    { prefsRowA with subscription_tier := "free",
                     subscription_status := some "canceled",
                     bills_limit := some 10,
                     stripe_subscription_id := none } ∈
      handleStripeEvent [prefsRowA] (.subscriptionDeleted "cus_1") :=
  ⟨by decide,
    (C8_subscription_deleted [prefsRowA] "cus_1" prefsRowA
      (by decide)).2.2.1⟩

/-- C10: payment-succeeded frame condition.  For every verified
`invoice.payment_succeeded` event: every row whose status is not
exactly "past_due" is preserved unchanged (including the matched
customer's row); when a row is matched, rows of other owners are
preserved, the matched owner's row is set to "active" only when it was
"past_due", and every row of the result is either an unchanged input row
or such an activation; with no match the table is unchanged; the
endpoint acknowledges receipt. -/
theorem C10_payment_succeeded_frame (rows : List Prefs) (cid : String) :
    (∀ p ∈ rows, p.subscription_status ≠ some "past_due" →
      p ∈ handleStripeEvent rows (.paymentSucceeded cid)) ∧
    (∀ r, singleByCustomer rows cid = some r →
      (∀ p ∈ rows, p.user_id ≠ r.user_id →
        p ∈ handleStripeEvent rows (.paymentSucceeded cid)) ∧
      (∀ p ∈ rows, p.user_id = r.user_id →
        p.subscription_status = some "past_due" →
          { p with subscription_status := some "active" } ∈
            handleStripeEvent rows (.paymentSucceeded cid)) ∧
      (∀ p2 ∈ handleStripeEvent rows (.paymentSucceeded cid),
        ∃ q ∈ rows, p2 = q ∨
          (p2 = { q with subscription_status := some "active" } ∧
            q.user_id = r.user_id ∧
            q.subscription_status = some "past_due"))) ∧
    (singleByCustomer rows cid = none →
      handleStripeEvent rows (.paymentSucceeded cid) = rows) ∧
    webhookAcknowledges rows (.paymentSucceeded cid) = true := by
  refine ⟨?_, ?_, ?_, rfl⟩
  · intro p hp hst
    rcases hm : singleByCustomer rows cid with _ | r
    · simp [handleStripeEvent, hm]
      exact hp
    · have hh : handleStripeEvent rows (.paymentSucceeded cid) =
          rows.map (fun p =>
            if p.user_id == r.user_id &&
                p.subscription_status == some "past_due" then
              { p with subscription_status := some "active" }
            else p) := by
        simp [handleStripeEvent, hm]
      rw [hh]
      have hfp : (if p.user_id == r.user_id &&
          p.subscription_status == some "past_due" then
            { p with subscription_status := some "active" }
          else p) = p := by
        rw [if_neg]
        simp [hst]
      exact hfp ▸ List.mem_map_of_mem _ hp
  · intro r hm
    have hh : handleStripeEvent rows (.paymentSucceeded cid) =
        rows.map (fun p =>
          if p.user_id == r.user_id &&
              p.subscription_status == some "past_due" then
            { p with subscription_status := some "active" }
          else p) := by
      simp [handleStripeEvent, hm]
    refine ⟨?_, ?_, ?_⟩
    · intro p hp hne
      rw [hh]
      have hfp : (if p.user_id == r.user_id &&
          p.subscription_status == some "past_due" then
            { p with subscription_status := some "active" }
          else p) = p := by
        rw [if_neg]
        simp [hne]
      exact hfp ▸ List.mem_map_of_mem _ hp
    · intro p hp hup hst
      rw [hh]
      have hfp : (if p.user_id == r.user_id &&
          p.subscription_status == some "past_due" then
            { p with subscription_status := some "active" }
          else p) = { p with subscription_status := some "active" } := by
        rw [if_pos]
        simp [hup, hst]
      exact hfp ▸ List.mem_map_of_mem _ hp
    · intro p2 hp2
      rw [hh] at hp2
      obtain ⟨q, hq, rfl⟩ := List.mem_map.mp hp2
      by_cases hc : (q.user_id == r.user_id &&
          q.subscription_status == some "past_due") = true
      · refine ⟨q, hq, Or.inr ⟨by rw [if_pos hc], ?_, ?_⟩⟩
        · have := (Bool.and_eq_true _ _).mp hc
          exact beq_iff_eq.mp this.1
        · have := (Bool.and_eq_true _ _).mp hc
          exact beq_iff_eq.mp this.2
      · exact ⟨q, hq, Or.inl (by rw [if_neg hc])⟩
  · intro hnone
    simp [handleStripeEvent, hnone]

/-- Witness for C10 at a concrete input: for customer cus_2 (row in
past_due) the past_due row is activated and the unrelated active row is
preserved. -/
theorem C10_payment_succeeded_frame_witness :
    singleByCustomer [prefsRowA, prefsRowP] "cus_2" = some prefsRowP ∧
    { prefsRowP with subscription_status := some "active" } ∈
      handleStripeEvent [prefsRowA, prefsRowP] (.paymentSucceeded "cus_2") ∧
    prefsRowA ∈
      handleStripeEvent [prefsRowA, prefsRowP] (.paymentSucceeded "cus_2") :=
  ⟨by decide,
    ((C10_payment_succeeded_frame [prefsRowA, prefsRowP] "cus_2").2.1
      prefsRowP (by decide)).2.1 prefsRowP (by decide) rfl rfl,
    (C10_payment_succeeded_frame [prefsRowA, prefsRowP] "cus_2").1
      prefsRowA (by decide) (by decide)⟩

/-- Helper: inserting a bill extends exactly its key's group, at the
end. -/
theorem entryFor_insertGroup (b : Bill) (k : String × ℚ × ℤ)
    (gs : List ((String × ℚ × ℤ) × List Bill)) :
    entryFor k (insertGroup b gs) =
      entryFor k gs ++ (if groupKey b = k then [b] else []) := by
  induction gs with
  | nil =>
    by_cases h : groupKey b = k
    · simp [insertGroup, entryFor, h]
    · simp [insertGroup, entryFor, h]
  | cons hd rest ih =>
    obtain ⟨k2, g⟩ := hd
    by_cases h : k2 = groupKey b
    · rw [insertGroup, if_pos h]
      by_cases hk : k2 = k
      · rw [entryFor, if_pos hk, entryFor, if_pos hk,
          if_pos (h ▸ hk)]
      · rw [entryFor, if_neg hk, entryFor, if_neg hk,
          if_neg (fun hbk => hk (h.trans hbk)), List.append_nil]
    · rw [insertGroup, if_neg h]
      by_cases hk : k2 = k
      · rw [entryFor, if_pos hk, entryFor, if_pos hk,
          if_neg (fun hbk => h (hk.trans hbk.symm)), List.append_nil]
      · rw [entryFor, if_neg hk, entryFor, if_neg hk, ih]

/-- Helper: the group of key `k` after folding a bill list into the map
is the filter of the list by that key, appended to the initial
entry. -/
theorem entryFor_foldl (bills : List Bill) :
    ∀ (gs : List ((String × ℚ × ℤ) × List Bill)) (k : String × ℚ × ℤ),
      entryFor k (bills.foldl (fun gs b => insertGroup b gs) gs) =
        entryFor k gs ++ bills.filter (fun b => decide (groupKey b = k)) := by
  induction bills with
  | nil => intro gs k; simp
  | cons b rest ih =>
    intro gs k
    rw [List.foldl_cons, ih, entryFor_insertGroup, List.filter_cons]
    by_cases h : groupKey b = k
    · rw [if_pos h]
      simp [h]
    · rw [if_neg h]
      simp [h]

/-- Helper: the group stored under key `k` is the `k`-filter of the
bill list. -/
theorem entryFor_billGroups (bills : List Bill) (k : String × ℚ × ℤ) :
    entryFor k (billGroups bills) =
      bills.filter (fun b => decide (groupKey b = k)) := by
  rw [billGroups, entryFor_foldl]
  rfl

/-- Helper: keys of the map after an insertion. -/
theorem mem_keys_insertGroup (b : Bill) (c : String × ℚ × ℤ)
    (gs : List ((String × ℚ × ℤ) × List Bill))
    (h : c ∈ (insertGroup b gs).map Prod.fst) :
    c ∈ gs.map Prod.fst ∨ c = groupKey b := by
  induction gs with
  | nil =>
    simp [insertGroup] at h
    exact Or.inr h
  | cons hd rest ih =>
    obtain ⟨k2, g⟩ := hd
    by_cases hk : k2 = groupKey b
    · rw [insertGroup, if_pos hk] at h
      simp at h
      rcases h with h | h
      · exact Or.inl (by simp [h])
      · exact Or.inl (by simp; exact Or.inr h)
    · rw [insertGroup, if_neg hk] at h
      simp at h
      rcases h with h | h
      · exact Or.inl (by simp [h])
      · rcases ih (by simpa using h) with h2 | h2
        · exact Or.inl (by simp; right; simpa using h2)
        · exact Or.inr h2

/-- Helper: insertion preserves distinctness of the map's keys. -/
theorem nodupKeys_insertGroup (b : Bill)
    (gs : List ((String × ℚ × ℤ) × List Bill))
    (h : (gs.map Prod.fst).Nodup) :
    ((insertGroup b gs).map Prod.fst).Nodup := by
  induction gs with
  | nil => simp [insertGroup]
  | cons hd rest ih =>
    obtain ⟨k2, g⟩ := hd
    rw [List.map_cons, List.nodup_cons] at h
    by_cases hk : k2 = groupKey b
    · rw [insertGroup, if_pos hk]
      rw [List.map_cons, List.nodup_cons]
      exact ⟨h.1, h.2⟩
    · rw [insertGroup, if_neg hk]
      rw [List.map_cons, List.nodup_cons]
      refine ⟨?_, ih h.2⟩
      intro hmem
      rcases mem_keys_insertGroup b k2 rest hmem with h2 | h2
      · exact h.1 h2
      · exact hk h2

/-- Helper: the `billGroups` map has pairwise-distinct keys. -/
theorem nodupKeys_billGroups (bills : List Bill) :
    ((billGroups bills).map Prod.fst).Nodup := by
  rw [billGroups]
  have hgen : ∀ (gs : List ((String × ℚ × ℤ) × List Bill)),
      (gs.map Prod.fst).Nodup →
      ((bills.foldl (fun gs b => insertGroup b gs) gs).map Prod.fst).Nodup := by
    induction bills with
    | nil => intro gs h; simpa using h
    | cons b rest ih =>
      intro gs h
      rw [List.foldl_cons]
      exact ih _ (nodupKeys_insertGroup b gs h)
  exact hgen [] (by simp)

/-- Helper: with distinct keys, a stored entry is the `entryFor` of its
key. -/
theorem entry_eq_entryFor (k : String × ℚ × ℤ) (g : List Bill)
    (gs : List ((String × ℚ × ℤ) × List Bill))
    (hn : (gs.map Prod.fst).Nodup) (h : (k, g) ∈ gs) :
    g = entryFor k gs := by
  induction gs with
  | nil => cases h
  | cons hd rest ih =>
    obtain ⟨k2, g2⟩ := hd
    rw [List.map_cons, List.nodup_cons] at hn
    rcases List.mem_cons.mp h with h1 | h1
    · injection h1 with ha hb
      rw [entryFor, if_pos ha.symm]
      exact hb
    · have hk : k2 ≠ k := by
        intro hkk
        apply hn.1
        subst hkk
        exact List.mem_map.mpr ⟨(k2, g), h1, rfl⟩
      rw [entryFor, if_neg hk]
      exact ih hn.2 h1
  
/-- Helper: a nonempty `entryFor` group is stored in the map. -/
theorem mem_of_entryFor_ne_nil (k : String × ℚ × ℤ)
    (gs : List ((String × ℚ × ℤ) × List Bill))
    (h : entryFor k gs ≠ []) : (k, entryFor k gs) ∈ gs := by
  induction gs with
  | nil => exact absurd rfl h
  | cons hd rest ih =>
    obtain ⟨k2, g2⟩ := hd
    by_cases hk : k2 = k
    · subst hk
      rw [entryFor, if_pos rfl] at h ⊢
      exact List.mem_cons_self _ _
    · rw [entryFor, if_neg hk] at h ⊢
      exact List.mem_cons_of_mem _ (ih h)

/-- Helper: membership in the deactivation list, in terms of the key
filters: an id is collected exactly when it is the id of a non-first
member of some key's filter group. -/
theorem mem_duplicateIds_iff (bills : List Bill) (x : ℕ) :
    x ∈ duplicateIds bills ↔
      ∃ k, x ∈ ((bills.filter
        (fun b => decide (groupKey b = k))).drop 1).map Bill.id := by
  rw [duplicateIds, List.mem_flatMap]
  constructor
  · rintro ⟨⟨k, g⟩, hmem, hx⟩
    have hg : g = entryFor k (billGroups bills) :=
      entry_eq_entryFor k g _ (nodupKeys_billGroups bills) hmem
    rw [entryFor_billGroups] at hg
    refine ⟨k, ?_⟩
    by_cases hl : 1 < g.length
    · rw [if_pos hl] at hx
      exact hg ▸ hx
    · rw [if_neg hl] at hx
      cases hx
  · rintro ⟨k, hx⟩
    set F := bills.filter (fun b => decide (groupKey b = k)) with hF
    have hFne : F ≠ [] := by
      intro hnil
      rw [hnil] at hx
      cases hx
    have hdropne : F.drop 1 ≠ [] := by
      intro hnil
      rw [hnil] at hx
      cases hx
    have hlen : 1 < F.length := by
      rcases F with _ | ⟨a, t⟩
      · exact absurd rfl hFne
      · rcases t with _ | ⟨b2, t2⟩
        · exact absurd rfl hdropne
        · simp
    have hentry : entryFor k (billGroups bills) = F :=
      entryFor_billGroups bills k
    refine ⟨(k, F), ?_, ?_⟩
    · have := mem_of_entryFor_ne_nil k (billGroups bills)
        (by rw [hentry]; exact hFne)
      rwa [hentry] at this
    · rw [if_pos hlen]
      exact hx

/-- Helper: with globally distinct bill ids, a bill of the list is
collected for deactivation exactly when it is a non-first member of its
own key group. -/
theorem mem_duplicateIds_self (bills : List Bill) (b : Bill)
    (hids : (bills.map Bill.id).Nodup) (hb : b ∈ bills) :
    b.id ∈ duplicateIds bills ↔
      b ∈ (bills.filter
        (fun c => decide (groupKey c = groupKey b))).drop 1 := by
  rw [mem_duplicateIds_iff]
  constructor
  · rintro ⟨k, hx⟩
    obtain ⟨c, hc, hcid⟩ := List.mem_map.mp hx
    have hcF : c ∈ bills.filter (fun b2 => decide (groupKey b2 = k)) :=
      List.mem_of_mem_drop hc
    have hcb : c ∈ bills := (List.mem_filter.mp hcF).1
    have hceq : c = b :=
      List.inj_on_of_nodup_map hids hcb hb hcid
    subst hceq
    have hkey : groupKey c = k := by
      have := (List.mem_filter.mp hcF).2
      exact of_decide_eq_true this
    rw [← hkey] at hc
    exact hc
  · intro hx
    exact ⟨groupKey b, List.mem_map_of_mem Bill.id hx⟩

/-- Helper: under a strictly increasing creation order, being a
non-first member of one's key group is the same as having a same-key
predecessor created strictly earlier. -/
theorem mem_drop_one_iff_earlier (l : List Bill) (b : Bill)
    (hs : l.Pairwise (fun a c => a.created_at < c.created_at))
    (hb : b ∈ l) :
    b ∈ (l.filter (fun c => decide (groupKey c = groupKey b))).drop 1 ↔
      ∃ b2 ∈ l, groupKey b2 = groupKey b ∧
        b2.created_at < b.created_at := by
  set F := l.filter (fun c => decide (groupKey c = groupKey b)) with hF
  have hbF : b ∈ F := by
    rw [hF, List.mem_filter]
    exact ⟨hb, by simp⟩
  have hsF : F.Pairwise (fun a c => a.created_at < c.created_at) :=
    hs.sublist (List.filter_sublist l)
  constructor
  · intro hx
    rcases hFc : F with _ | ⟨f0, t⟩
    · rw [hFc] at hx
      cases hx
    · rw [hFc] at hx
      simp only [List.drop_one, List.tail_cons] at hx
      have hf0F : f0 ∈ F := by rw [hFc]; exact List.mem_cons_self _ _
      have hf0l : f0 ∈ l := (List.mem_filter.mp hf0F).1
      have hf0k : groupKey f0 = groupKey b :=
        of_decide_eq_true (List.mem_filter.mp hf0F).2
      have hlt : f0.created_at < b.created_at := by
        rw [hFc] at hsF
        exact (List.pairwise_cons.mp hsF).1 b hx
      exact ⟨f0, hf0l, hf0k, hlt⟩
  · rintro ⟨b2, hb2l, hb2k, hb2lt⟩
    have hb2F : b2 ∈ F := by
      rw [hF, List.mem_filter]
      exact ⟨hb2l, by simp [hb2k]⟩
    rcases hFc : F with _ | ⟨f0, t⟩
    · rw [hFc] at hbF
      cases hbF
    · rw [hFc] at hbF hb2F hsF
      simp only [List.drop_one, List.tail_cons]
      rcases List.mem_cons.mp hbF with hbh | hbt
    -- if b were the head, b2 would be created after b, contradiction
      · subst hbh
        rcases List.mem_cons.mp hb2F with hb2h | hb2t
        · rw [hb2h] at hb2lt
          exact absurd hb2lt (lt_irrefl _)
        · have := (List.pairwise_cons.mp hsF).1 b2 hb2t
          exact absurd hb2lt (by omega)
      · exact hbt

/-- Helper: membership in the owner's active-bill query. -/
theorem mem_activeBillsFor (uid : String) (bills : List Bill) (b : Bill) :
    b ∈ activeBillsFor uid bills ↔
      b ∈ bills ∧ b.user_id = uid ∧ b.is_active = true := by
  simp [activeBillsFor, List.mem_filter, Bool.and_eq_true, beq_iff_eq,
    and_assoc]

/-- C7: Duplicate Cleanup Sweep grouping and keep-oldest rule.  With
globally distinct bill ids and the owner's active bills strictly ordered
by creation time (the query's `created_at` ascending order), the sweep
maps the bills table to: every active bill of the owner that has a
same-composite-key active bill created strictly earlier is soft-deleted
(`is_active := false`), and every other row — other owners' bills,
already-inactive bills, and each group's earliest member — is left
unchanged.  The composite key is the normalized main keyword (card
descriptors removed), the amount at two decimals, and the due day. -/
theorem C7_cleanup_sweep (uid : String) (bills : List Bill)
    (hids : (bills.map Bill.id).Nodup)
    (hsorted : (activeBillsFor uid bills).Pairwise
      (fun a c => a.created_at < c.created_at)) :
    sweepState uid bills = bills.map (fun b =>
      if b.user_id = uid ∧ b.is_active = true ∧
          ∃ b2 ∈ activeBillsFor uid bills,
            groupKey b2 = groupKey b ∧ b2.created_at < b.created_at
        then { b with is_active := false } else b) := by
  rw [sweepState]
  apply List.map_congr_left
  intro b hb
  have hAids : ((activeBillsFor uid bills).map Bill.id).Nodup :=
    List.Nodup.sublist (List.Sublist.map Bill.id
      (List.filter_sublist bills)) hids
  by_cases hbA : b ∈ activeBillsFor uid bills
  · have hmemA := (mem_activeBillsFor uid bills b).mp hbA
    have hiff : (duplicateIds (activeBillsFor uid bills)).contains b.id =
        true ↔
        ∃ b2 ∈ activeBillsFor uid bills,
          groupKey b2 = groupKey b ∧ b2.created_at < b.created_at := by
      constructor
      · intro h
        have hmem := List.mem_of_elem_eq_true h
        rw [mem_duplicateIds_self _ b hAids hbA] at hmem
        exact (mem_drop_one_iff_earlier _ b hsorted hbA).mp hmem
      · intro h
        apply List.elem_eq_true_of_mem
        rw [mem_duplicateIds_self _ b hAids hbA]
        exact (mem_drop_one_iff_earlier _ b hsorted hbA).mpr h
    by_cases hd : ∃ b2 ∈ activeBillsFor uid bills,
        groupKey b2 = groupKey b ∧ b2.created_at < b.created_at
    · rw [if_pos (hiff.mpr hd), if_pos ⟨hmemA.2.1, hmemA.2.2, hd⟩]
    · rw [if_neg ?_, if_neg ?_]
      · intro hcond
        exact hd hcond.2.2
      · intro hcontains
        exact hd (hiff.mp hcontains)
  · rw [if_neg ?_, if_neg ?_]
    · intro hcond
      exact hbA ((mem_activeBillsFor uid bills b).mpr
        ⟨hb, hcond.1, hcond.2.1⟩)
    · intro hcontains
      have hmem := List.mem_of_elem_eq_true hcontains
      rw [mem_duplicateIds_iff] at hmem
      obtain ⟨k, hx⟩ := hmem
      obtain ⟨c, hc, hcid⟩ := List.mem_map.mp hx
      have hcA : c ∈ activeBillsFor uid bills :=
        (List.mem_filter.mp (List.mem_of_mem_drop hc)).1
      have hcb : c ∈ bills := ((mem_activeBillsFor uid bills c).mp hcA).1
      have : c = b := List.inj_on_of_nodup_map hids hcb hb hcid
      exact hbA (this ▸ hcA)

/-- Witness for C7 at the claim's concrete example: two active Chase
bills with the same keyword "chase", amount 50.00 and due day 15, the
second created later; the sweep deactivates exactly the second. -/
theorem C7_cleanup_sweep_witness :
    (([chase1, chase2].map Bill.id).Nodup ∧
      (activeBillsFor "u1" [chase1, chase2]).Pairwise
        (fun a c => a.created_at < c.created_at)) ∧
    sweepState "u1" [chase1, chase2] = [chase1, chase2].map (fun b =>
      if b.user_id = "u1" ∧ b.is_active = true ∧
          ∃ b2 ∈ activeBillsFor "u1" [chase1, chase2],
            groupKey b2 = groupKey b ∧ b2.created_at < b.created_at
        then { b with is_active := false } else b) ∧
    sweepState "u1" [chase1, chase2] =
      [chase1, { chase2 with is_active := false }] :=
  ⟨⟨by decide, by decide⟩,
    C7_cleanup_sweep "u1" [chase1, chase2] (by decide) (by decide),
    by decide⟩

/-- Helper: when no two distinct bills of a duplicate-free list share a
composite key, the sweep collects nothing. -/
theorem duplicateIds_nil_of_key_inj (l : List Bill)
    (hn : (l.map Bill.id).Nodup)
    (h : ∀ a ∈ l, ∀ c ∈ l, groupKey a = groupKey c → a = c) :
    duplicateIds l = [] := by
  rw [List.eq_nil_iff_forall_not_mem]
  intro x hx
  rw [mem_duplicateIds_iff] at hx
  obtain ⟨k, hx⟩ := hx
  obtain ⟨c, hc, hcid⟩ := List.mem_map.mp hx
  rcases hFc : l.filter (fun b => decide (groupKey b = k))
    with _ | ⟨f0, t⟩
  · rw [hFc] at hc
    cases hc
  · rw [hFc] at hc
    simp only [List.drop_one, List.tail_cons] at hc
    have hf0F : f0 ∈ l.filter (fun b => decide (groupKey b = k)) := by
      rw [hFc]
      exact List.mem_cons_self _ _
    have hcF : c ∈ l.filter (fun b => decide (groupKey b = k)) := by
      rw [hFc]
      exact List.mem_cons_of_mem _ hc
    have hkeys : groupKey f0 = groupKey c :=
      (of_decide_eq_true (List.mem_filter.mp hf0F).2).trans
        (of_decide_eq_true (List.mem_filter.mp hcF).2).symm
    have heq : f0 = c :=
      h f0 (List.mem_filter.mp hf0F).1 c (List.mem_filter.mp hcF).1 hkeys
    have hlnodup : l.Nodup := List.Nodup.of_map Bill.id hn
    have hFnodup : (l.filter (fun b => decide (groupKey b = k))).Nodup :=
      List.Nodup.filter _ hlnodup
    rw [hFc, List.nodup_cons] at hFnodup
    exact hFnodup.1 (heq ▸ hc)

/-- Helper: the sweep does not change bill ids. -/
theorem sweepState_map_id (uid : String) (bills : List Bill) :
    (sweepState uid bills).map Bill.id = bills.map Bill.id := by
  rw [sweepState, List.map_map]
  apply List.map_congr_left
  intro b _
  by_cases h : b.id ∈ duplicateIds (activeBillsFor uid bills)
  · simp [h]
  · simp [h]

/-- Helper: a bill is active (for this owner) after the sweep exactly
when it was active before and was not collected for deactivation. -/
theorem mem_active_sweep (uid : String) (bills : List Bill) (x : Bill) :
    x ∈ activeBillsFor uid (sweepState uid bills) ↔
      x ∈ activeBillsFor uid bills ∧
        x.id ∉ duplicateIds (activeBillsFor uid bills) := by
  constructor
  · intro hx
    obtain ⟨hxs, hxu, hxa⟩ := (mem_activeBillsFor _ _ _).mp hx
    rw [sweepState] at hxs
    obtain ⟨c, hc, hfc⟩ := List.mem_map.mp hxs
    by_cases h : (duplicateIds (activeBillsFor uid bills)).contains c.id
    · rw [if_pos h] at hfc
      rw [← hfc] at hxa
      cases hxa
    · rw [if_neg h] at hfc
      subst hfc
      refine ⟨(mem_activeBillsFor _ _ _).mpr ⟨hc, hxu, hxa⟩, ?_⟩
      intro hmem
      exact h (List.elem_eq_true_of_mem hmem)
  · rintro ⟨hxA, hxd⟩
    obtain ⟨hxb, hxu, hxa⟩ := (mem_activeBillsFor _ _ _).mp hxA
    have hcont : (duplicateIds (activeBillsFor uid bills)).contains x.id =
        false := by
      cases hc : (duplicateIds (activeBillsFor uid bills)).contains x.id
      · rfl
      · exact absurd (List.mem_of_elem_eq_true hc) hxd
    refine (mem_activeBillsFor _ _ _).mpr ⟨?_, hxu, hxa⟩
    rw [sweepState]
    have : (if (duplicateIds (activeBillsFor uid bills)).contains x.id
        then { x with is_active := false } else x) = x := by
      rw [hcont]
      rfl
    exact this ▸ List.mem_map_of_mem _ hxb

/-- Helper: after one sweep, no two distinct remaining active bills of
the owner share a composite key. -/
theorem key_inj_after_sweep (uid : String) (bills : List Bill)
    (hids : (bills.map Bill.id).Nodup) :
    ∀ a ∈ activeBillsFor uid (sweepState uid bills),
    ∀ c ∈ activeBillsFor uid (sweepState uid bills),
      groupKey a = groupKey c → a = c := by
  intro a ha c hc hkey
  obtain ⟨haA, haD⟩ := (mem_active_sweep uid bills a).mp ha
  obtain ⟨hcA, hcD⟩ := (mem_active_sweep uid bills c).mp hc
  have hAids : ((activeBillsFor uid bills).map Bill.id).Nodup :=
    List.Nodup.sublist (List.Sublist.map Bill.id
      (List.filter_sublist bills)) hids
  have hano : a ∉ ((activeBillsFor uid bills).filter
      (fun d => decide (groupKey d = groupKey a))).drop 1 := by
    intro hmem
    exact haD ((mem_duplicateIds_self _ a hAids haA).mpr hmem)
  have hcno : c ∉ ((activeBillsFor uid bills).filter
      (fun d => decide (groupKey d = groupKey a))).drop 1 := by
    intro hmem
    apply hcD
    apply (mem_duplicateIds_self _ c hAids hcA).mpr
    have hfe : ((activeBillsFor uid bills).filter
        (fun d => decide (groupKey d = groupKey a))) =
        ((activeBillsFor uid bills).filter
          (fun d => decide (groupKey d = groupKey c))) := by
      apply List.filter_congr
      intro d _
      rw [hkey]
    rw [← hfe]
    exact hmem
  have haF : a ∈ (activeBillsFor uid bills).filter
      (fun d => decide (groupKey d = groupKey a)) := by
    rw [List.mem_filter]
    exact ⟨haA, by simp⟩
  have hcF : c ∈ (activeBillsFor uid bills).filter
      (fun d => decide (groupKey d = groupKey a)) := by
    rw [List.mem_filter]
    exact ⟨hcA, by simp [hkey]⟩
  rcases hFc : (activeBillsFor uid bills).filter
      (fun d => decide (groupKey d = groupKey a)) with _ | ⟨f0, t⟩
  · rw [hFc] at haF
    cases haF
  · rw [hFc] at haF hcF hano hcno
    simp only [List.drop_one, List.tail_cons] at hano hcno
    have ha0 : a = f0 := by
      rcases List.mem_cons.mp haF with h | h
      · exact h
      · exact absurd h hano
    have hc0 : c = f0 := by
      rcases List.mem_cons.mp hcF with h | h
      · exact h
      · exact absurd h hcno
    rw [ha0, hc0]

/-- C9: Cleanup Sweep idempotence.  With globally distinct bill ids,
running the sweep immediately again deactivates zero bills: after one
run every composite-key group of the owner's remaining active bills has
exactly one member, so the second run collects an empty deactivation
list and leaves the table unchanged. -/
theorem C9_sweep_idempotent (uid : String) (bills : List Bill)
    (hids : (bills.map Bill.id).Nodup) :
    duplicateIds (activeBillsFor uid (sweepState uid bills)) = [] ∧
    sweepState uid (sweepState uid bills) = sweepState uid bills := by
  have hsw : ((sweepState uid bills).map Bill.id).Nodup := by
    rw [sweepState_map_id]
    exact hids
  have hA'ids : ((activeBillsFor uid (sweepState uid bills)).map
      Bill.id).Nodup :=
    List.Nodup.sublist (List.Sublist.map Bill.id
      (List.filter_sublist (sweepState uid bills))) hsw
  have h1 : duplicateIds (activeBillsFor uid (sweepState uid bills)) = [] :=
    duplicateIds_nil_of_key_inj _ hA'ids (key_inj_after_sweep uid bills hids)
  refine ⟨h1, ?_⟩
  conv_lhs => rw [sweepState]
  rw [h1]
  simp

/-- Witness for C9 at a concrete input: after sweeping the two-Chase
table once, a second sweep changes nothing. -/
theorem C9_sweep_idempotent_witness :
    ([chase1, chase2].map Bill.id).Nodup ∧
    duplicateIds (activeBillsFor "u1" (sweepState "u1" [chase1, chase2])) =
      [] ∧
    sweepState "u1" (sweepState "u1" [chase1, chase2]) =
      sweepState "u1" [chase1, chase2] :=
  ⟨by decide,
    (C9_sweep_idempotent "u1" [chase1, chase2] (by decide)).1,
    (C9_sweep_idempotent "u1" [chase1, chase2] (by decide)).2⟩

/-- Helper: `contains` is false for a non-member. -/
theorem contains_eq_false_of_not_mem {α : Type} [BEq α] [LawfulBEq α]
    (l : List α) (a : α) (h : a ∉ l) : l.contains a = false := by
  cases hc : l.contains a
  · rfl
  · exact absurd (List.mem_of_elem_eq_true hc) h

/-- Helper: unpacking the Reconciler's acceptance policy. -/
theorem acceptedB_facts (p : ParsedBill) (h : acceptedB p = true) :
    p.isBill = true ∧ (70 : ℚ) ≤ p.confidence ∧ p.name.getD "" ≠ "" ∧
      ∃ a, p.amount = some a ∧ 0 < a := by
  rcases hpa : p.amount with _ | a
  · rw [acceptedB, hasValidAmount, hpa] at h
    simp at h
  · rw [acceptedB, hasValidAmount, hpa] at h
    simp only [Bool.and_eq_true, decide_eq_true_eq] at h
    exact ⟨h.1.1.1, h.1.1.2, h.1.2, a, rfl, h.2⟩

/-- Helper: the due day sent to the creation gate
(`parsed.dueDay || 1`) lies in [1, 31] whenever the extractor's range
discipline holds. -/
theorem jsNum_due_bounds (p : ParsedBill)
    (hdue : ∀ q, p.dueDay = some q → 1 ≤ q ∧ q ≤ 31) :
    1 ≤ jsNum p.dueDay 1 ∧ jsNum p.dueDay 1 ≤ 31 := by
  rcases hd : p.dueDay with _ | q
  · rw [jsNum]
    norm_num
  · have hq := hdue q hd
    rw [jsNum]
    have hq0 : ¬ q = 0 := by
      intro h0
      rw [h0] at hq
      norm_num at hq
    rw [if_neg hq0]
    exact hq

/-- Helper: truncation of a rational in [1, 31] stays in [1, 31]. -/
theorem jsTrunc_bounds (x : ℚ) (h1 : 1 ≤ x) (h2 : x ≤ 31) :
    1 ≤ jsTrunc x ∧ jsTrunc x ≤ 31 := by
  have hx0 : (0 : ℚ) ≤ x := by linarith
  rw [jsTrunc, if_pos hx0]
  constructor
  · exact Int.le_floor.mpr (by exact_mod_cast h1)
  · have := (Int.floor_le x).trans h2
    exact_mod_cast this

/-- Helper: the Bill Creation Gate on a request assembled by the
Reconciler from an accepted, extractor-shaped candidate always passes
field validation: the outcome is the quota error when the active count
has reached the effective limit, and otherwise the inserted row. -/
theorem createBill_accepted (uid : String) (prefs : Option Prefs)
    (count fid now : ℕ) (e : Email) (p : ParsedBill)
    (hacc : acceptedB p = true)
    (hcat : p.category ∈ BILL_CATEGORIES)
    (hdue : ∀ q, p.dueDay = some q → 1 ≤ q ∧ q ≤ 31) :
    createBill uid prefs count fid now (mkRequest e p) =
      if effectiveLimit prefs ≤ count then
        CreateResult.limitError count (effectiveLimit prefs) (tierOf prefs)
      else
        CreateResult.created
          { id := fid, user_id := uid, name := p.name.getD "",
            amount := round2 (p.amount.getD 0),
            due_day := jsTrunc (jsNum p.dueDay 1),
            recurrence := "monthly", category := p.category,
            notes := jsStrOpt (some (notesFor e p)), is_active := true,
            google_event_id := none, created_at := now } := by
  obtain ⟨hb, hconf, hname, a, hpa, hapos⟩ := acceptedB_facts p hacc
  have hdb := jsNum_due_bounds p hdue
  have htr := jsTrunc_bounds _ hdb.1 hdb.2
  have hcatne : p.category ≠ "" := by
    have hall : ∀ s ∈ BILL_CATEGORIES, s ≠ "" := by decide
    exact hall _ hcat
  simp only [createBill, mkRequest]
  have hmiss : ¬ (p.name.getD "" = "" ∨ p.amount.getD 0 = 0 ∨
      jsNum p.dueDay 1 = 0) := by
    rintro (h | h | h)
    · exact hname h
    · rw [hpa, Option.getD_some] at h
      exact (ne_of_gt hapos) h
    · rw [h] at hdb
      norm_num at hdb
  have hamt : ¬ p.amount.getD 0 ≤ 0 := by
    rw [hpa, Option.getD_some]
    exact not_le.mpr hapos
  have hday : ¬ (jsTrunc (jsNum p.dueDay 1) < 1 ∨
      31 < jsTrunc (jsNum p.dueDay 1)) := by
    rintro (h | h) <;> omega
  have hcatv : jsStr (some p.category) "Other" = p.category := by
    simp only [jsStr]
    rw [if_neg hcatne]
  rw [if_neg hmiss, if_neg hamt, if_neg hday, hcatv,
    if_neg (not_not_intro hcat)]
  rfl

/-- C3 (amended): duplicate-avoidance on acceptance.  For two accepted
extraction results of the same owner whose names match case-insensitively,
whose amounts differ by at most $0.50, and whose due days agree (missing
defaulting to 1) and are integral, processed in one sync into a state in
which neither email was seen before, *no existing active bill already
matches either result's search window*, and the owner is below the
effective bill limit, the Reconciler creates exactly one new Bill row
and attaches both source emails to its id via `synced_emails` rows.
(The restriction on pre-existing near-matching bills and on integral due
days is forced by `C3_duplicate_avoidance_counterexample`.) -/
theorem C3_duplicate_avoidance_amended (uid : String)
    (prefs : Option Prefs) (now : ℕ) (st : SyncState) (e1 e2 : Email)
    (p1 p2 : ParsedBill)
    (hp1 : e1.parsed = some p1) (hp2 : e2.parsed = some p2)
    (hacc1 : acceptedB p1 = true) (hacc2 : acceptedB p2 = true)
    (hwf1 : p1.category ∈ BILL_CATEGORIES ∧
      ∀ q, p1.dueDay = some q → 1 ≤ q ∧ q ≤ 31)
    (hfresh1 : e1.id ∉ syncedIdsFor uid st)
    (hfresh2 : e2.id ∉ syncedIdsFor uid st)
    (hname : strLower (p1.name.getD "") = strLower (p2.name.getD ""))
    (hamt : |p1.amount.getD 0 - p2.amount.getD 0| ≤ 1/2)
    (hdueq : jsNum p1.dueDay 1 = jsNum p2.dueDay 1)
    (hint : ∃ z : ℤ, jsNum p1.dueDay 1 = (z : ℚ))
    (hnomatch1 : findExisting uid st.bills (p1.name.getD "")
      (p1.amount.getD 0) (jsNum p1.dueDay 1) = none)
    (hnomatch2 : findExisting uid st.bills (p2.name.getD "")
      (p2.amount.getD 0) (jsNum p2.dueDay 1) = none)
    (hquota : activeCountFor uid st.bills < effectiveLimit prefs) :
    ∃ b : Bill,
      (runSync uid prefs now st [e1, e2]).bills = st.bills ++ [b] ∧
      (runSync uid prefs now st [e1, e2]).synced =
        st.synced ++ [mkSyncedRow uid e1 (some b.id),
          mkSyncedRow uid e2 (some b.id)] := by
  obtain ⟨_, _, _, a1, hpa1, hapos1⟩ := acceptedB_facts p1 hacc1
  obtain ⟨_, _, _, a2, hpa2, hapos2⟩ := acceptedB_facts p2 hacc2
  obtain ⟨z, hz⟩ := hint
  obtain ⟨bR, hcreate, hbid, hbuid, hbname, hbamt, hbdue, hbact⟩ :
      ∃ bR : Bill, createBill uid prefs (activeCountFor uid st.bills)
          st.nextId now (mkRequest e1 p1) = CreateResult.created bR ∧
        bR.id = st.nextId ∧ bR.user_id = uid ∧
        bR.name = p1.name.getD "" ∧
        bR.amount = round2 (p1.amount.getD 0) ∧
        bR.due_day = jsTrunc (jsNum p1.dueDay 1) ∧
        bR.is_active = true := by
    refine ⟨{ id := st.nextId, user_id := uid, name := p1.name.getD "",
              amount := round2 (p1.amount.getD 0),
              due_day := jsTrunc (jsNum p1.dueDay 1),
              recurrence := "monthly", category := p1.category,
              notes := jsStrOpt (some (notesFor e1 p1)),
              is_active := true, google_event_id := none,
              created_at := now }, ?_, rfl, rfl, rfl, rfl, rfl, rfl⟩
    rw [createBill_accepted uid prefs (activeCountFor uid st.bills)
      st.nextId now e1 p1 hacc1 hwf1.1 hwf1.2,
      if_neg (not_le.mpr hquota)]
  have hc1 : (syncedIdsFor uid st).contains e1.id = false :=
    contains_eq_false_of_not_mem _ _ hfresh1
  have hc2 : (syncedIdsFor uid st).contains e2.id = false :=
    contains_eq_false_of_not_mem _ _ hfresh2
  have hfil : [e1, e2].filter (fun e =>
      ¬ (syncedIdsFor uid st).contains e.id) = [e1, e2] := by
    simp [List.filter, hfresh1, hfresh2]
  have hstep1 : processEmail uid prefs now st e1 =
      { st with bills := st.bills ++ [bR],
                synced := st.synced ++ [mkSyncedRow uid e1 (some bR.id)],
                nextId := st.nextId + 1 } := by
    simp [processEmail, hp1, hacc1, hnomatch1, hcreate]
  have h01 : 0 ≤ p1.amount.getD 0 := by
    rw [hpa1]
    simpa using hapos1.le
  have h02 : 0 ≤ p2.amount.getD 0 := by
    rw [hpa2]
    simpa using hapos2.le
  have hclose := round2_close (p1.amount.getD 0) (p2.amount.getD 0)
    h01 h02 hamt
  have hdue2 : ((jsTrunc (jsNum p1.dueDay 1) : ℤ) : ℚ) =
      jsNum p2.dueDay 1 := by
    rw [hz, jsTrunc_intCast, ← hdueq, hz]
  have hnil2 : st.bills.filter (fun b =>
      b.user_id == uid && ilikeEq b.name (p2.name.getD "") &&
      decide (subHalf (round2 (p2.amount.getD 0)) ≤ b.amount) &&
      decide (b.amount ≤ addHalf (round2 (p2.amount.getD 0))) &&
      decide ((b.due_day : ℚ) = jsNum p2.dueDay 1) && b.is_active) = [] := by
    simp only [findExisting] at hnomatch2
    exact List.head?_eq_none_iff.mp hnomatch2
  have hpred : (bR.user_id == uid && ilikeEq bR.name (p2.name.getD "") &&
      decide (subHalf (round2 (p2.amount.getD 0)) ≤ bR.amount) &&
      decide (bR.amount ≤ addHalf (round2 (p2.amount.getD 0))) &&
      decide ((bR.due_day : ℚ) = jsNum p2.dueDay 1) && bR.is_active) =
      true := by
    rw [hbuid, hbname, hbamt, hbdue, hbact]
    simp [ilikeEq, hname, hclose.1, hclose.2, hdue2]
  have hfind2 : findExisting uid (st.bills ++ [bR]) (p2.name.getD "")
      (p2.amount.getD 0) (jsNum p2.dueDay 1) = some bR := by
    simp only [findExisting, List.filter_append, hnil2, List.nil_append]
    simp [List.filter, hpred]
  have hstep2 : processEmail uid prefs now
      { st with bills := st.bills ++ [bR],
                synced := st.synced ++ [mkSyncedRow uid e1 (some bR.id)],
                nextId := st.nextId + 1 } e2 =
      { st with bills := st.bills ++ [bR],
                synced := st.synced ++ [mkSyncedRow uid e1 (some bR.id),
                  mkSyncedRow uid e2 (some bR.id)],
                nextId := st.nextId + 1 } := by
    simp [processEmail, hp2, hacc2, hfind2, List.append_assoc]
  refine ⟨bR, ?_, ?_⟩
  · simp only [runSync, hfil, List.foldl_cons, List.foldl_nil,
      hstep1, hstep2]
  · simp only [runSync, hfil, List.foldl_cons, List.foldl_nil,
      hstep1, hstep2]

/-- C3 counterexample: the claim as stated fails when a pre-existing
active bill lies inside one candidate's ±$0.50 search window but not the
other's.  Owner u1 holds the active bill `bill0` (netflix, $10.50, due
day 1).  The two accepted extractions `pA` (Netflix, $10.00) and `pB`
(netflix, $9.50) match case-insensitively, differ by exactly $0.50 and
share due day 1 — yet the sync attaches `eA` to bill 99 (`bill0`, inside
[9.50, 10.50]) and `eB` to a freshly created bill 100 ($10.50 is outside
[9.00, 10.00]), so the two source emails land on different Bill ids and
a second Bill row is created. -/
theorem C3_duplicate_avoidance_counterexample :
    strLower (pA.name.getD "") = strLower (pB.name.getD "") ∧
    |pA.amount.getD 0 - pB.amount.getD 0| ≤ 1/2 ∧
    jsNum pA.dueDay 1 = jsNum pB.dueDay 1 ∧
    acceptedB pA = true ∧ acceptedB pB = true ∧
    st3.bills.length = 1 ∧
    (runSync "u1" none 5 st3 [eA, eB]).synced =
      [mkSyncedRow "u1" eA (some 99), mkSyncedRow "u1" eB (some 100)] ∧
    (99 : ℕ) ≠ 100 ∧
    (runSync "u1" none 5 st3 [eA, eB]).bills.length = 2 := by
  refine ⟨by decide, ?_, by decide, by decide, by decide, by decide,
    by decide, by decide, by decide⟩
  rw [show pA.amount.getD 0 = 10 from rfl,
    show pB.amount.getD 0 = mkRat 19 2 from rfl, Rat.mkRat_eq_div, abs_le]
  norm_num

/-- Witness for C3 (amended) at a concrete input: the same two
extractions processed into the empty state produce one bill carrying
both synced emails. -/
theorem C3_duplicate_avoidance_amended_witness :
    (strLower (pA.name.getD "") = strLower (pB.name.getD "") ∧
      |pA.amount.getD 0 - pB.amount.getD 0| ≤ 1/2 ∧
      acceptedB pA = true ∧ acceptedB pB = true ∧
      activeCountFor "u1" st0.bills < effectiveLimit none) ∧
    ∃ b : Bill,
      (runSync "u1" none 7 st0 [eA, eB]).bills = st0.bills ++ [b] ∧
      (runSync "u1" none 7 st0 [eA, eB]).synced =
        st0.synced ++ [mkSyncedRow "u1" eA (some b.id),
          mkSyncedRow "u1" eB (some b.id)] := by
  have hamt : |pA.amount.getD 0 - pB.amount.getD 0| ≤ 1/2 := by
    rw [show pA.amount.getD 0 = 10 from rfl,
      show pB.amount.getD 0 = mkRat 19 2 from rfl, Rat.mkRat_eq_div, abs_le]
    norm_num
  refine ⟨⟨by decide, hamt, by decide, by decide, by decide⟩, ?_⟩
  refine C3_duplicate_avoidance_amended "u1" none 7 st0 eA eB pA pB rfl rfl
    (by decide) (by decide) ⟨by decide, ?_⟩ (by decide) (by decide)
    (by decide) hamt (by decide) ⟨1, ?_⟩ rfl rfl (by decide)
  · intro q hq
    injection hq with h
    subst h
    constructor <;> norm_num
  · decide

/-- Helper: exhaustive case analysis of one Reconciler iteration: reuse
of an existing bill, creation of a new bill, a silent skip on gate
failure, or rejection bookkeeping. -/
theorem processEmail_cases (uid : String) (prefs : Option Prefs) (now : ℕ)
    (st : SyncState) (e : Email) :
    (∃ p b, e.parsed = some p ∧ acceptedB p = true ∧
      findExisting uid st.bills (p.name.getD "") (p.amount.getD 0)
        (jsNum p.dueDay 1) = some b ∧
      processEmail uid prefs now st e =
        { st with synced := st.synced ++ [mkSyncedRow uid e (some b.id)] }) ∨
    (∃ p b, e.parsed = some p ∧ acceptedB p = true ∧
      findExisting uid st.bills (p.name.getD "") (p.amount.getD 0)
        (jsNum p.dueDay 1) = none ∧
      createBill uid prefs (activeCountFor uid st.bills) st.nextId now
        (mkRequest e p) = CreateResult.created b ∧
      processEmail uid prefs now st e =
        { st with bills := st.bills ++ [b],
                  synced := st.synced ++ [mkSyncedRow uid e (some b.id)],
                  nextId := st.nextId + 1 }) ∨
    (∃ p, e.parsed = some p ∧ acceptedB p = true ∧
      findExisting uid st.bills (p.name.getD "") (p.amount.getD 0)
        (jsNum p.dueDay 1) = none ∧
      (∀ b, createBill uid prefs (activeCountFor uid st.bills) st.nextId
        now (mkRequest e p) ≠ CreateResult.created b) ∧
      processEmail uid prefs now st e = st) ∨
    (processEmail uid prefs now st e =
      { st with rejected := st.rejected ++ [mkRejectedRow uid e e.parsed],
                synced := st.synced ++ [mkSyncedRow uid e none] }) := by
  rcases hp : e.parsed with _ | p
  · refine Or.inr (Or.inr (Or.inr ?_))
    simp [processEmail, hp]
  · by_cases ha : acceptedB p = true
    · rcases hf : findExisting uid st.bills (p.name.getD "")
        (p.amount.getD 0) (jsNum p.dueDay 1) with _ | b
      · rcases hc : createBill uid prefs (activeCountFor uid st.bills)
          st.nextId now (mkRequest e p)
          with _ | _ | _ | _ | ⟨cnt, lim, tier⟩ | b
        · exact Or.inr (Or.inr (Or.inl ⟨p, rfl, ha, hf,
            (fun b hb => by simp [hc] at hb),
            by simp [processEmail, hp, ha, hf, hc]⟩))
        · exact Or.inr (Or.inr (Or.inl ⟨p, rfl, ha, hf,
            (fun b hb => by simp [hc] at hb),
            by simp [processEmail, hp, ha, hf, hc]⟩))
        · exact Or.inr (Or.inr (Or.inl ⟨p, rfl, ha, hf,
            (fun b hb => by simp [hc] at hb),
            by simp [processEmail, hp, ha, hf, hc]⟩))
        · exact Or.inr (Or.inr (Or.inl ⟨p, rfl, ha, hf,
            (fun b hb => by simp [hc] at hb),
            by simp [processEmail, hp, ha, hf, hc]⟩))
        · exact Or.inr (Or.inr (Or.inl ⟨p, rfl, ha, hf,
            (fun b hb => by simp [hc] at hb),
            by simp [processEmail, hp, ha, hf, hc]⟩))
        · exact Or.inr (Or.inl ⟨p, b, rfl, ha, hf, hc,
            by simp [processEmail, hp, ha, hf, hc]⟩)
      · exact Or.inl ⟨p, b, rfl, ha, hf,
          by simp [processEmail, hp, ha, hf]⟩
    · refine Or.inr (Or.inr (Or.inr ?_))
      simp [processEmail, hp, ha]

/-- Helper: one iteration only appends to `synced_emails`. -/
theorem processEmail_synced_append (uid : String) (prefs : Option Prefs)
    (now : ℕ) (st : SyncState) (e : Email) :
    ∃ t, (processEmail uid prefs now st e).synced = st.synced ++ t := by
  rcases processEmail_cases uid prefs now st e with
    ⟨p, b, _, _, _, hst⟩ | ⟨p, b, _, _, _, _, hst⟩ | ⟨p, _, _, _, _, hst⟩ |
    hst
  · exact ⟨_, by rw [hst]⟩
  · exact ⟨_, by rw [hst]⟩
  · exact ⟨[], by rw [hst, List.append_nil]⟩
  · exact ⟨_, by rw [hst]⟩

/-- Helper: a whole sync run only appends to `synced_emails`. -/
theorem foldl_synced_append (uid : String) (prefs : Option Prefs)
    (now : ℕ) :
    ∀ (l : List Email) (st : SyncState),
      ∃ t, (l.foldl (processEmail uid prefs now) st).synced =
        st.synced ++ t := by
  intro l
  induction l with
  | nil => exact fun st => ⟨[], by simp⟩
  | cons e0 rest ih =>
    intro st
    obtain ⟨t1, h1⟩ := processEmail_synced_append uid prefs now st e0
    obtain ⟨t2, h2⟩ := ih (processEmail uid prefs now st e0)
    exact ⟨t1 ++ t2, by rw [List.foldl_cons, h2, h1, List.append_assoc]⟩

/-- Helper: recorded email ids survive the rest of a run. -/
theorem syncedIds_mono (uid : String) (prefs : Option Prefs) (now : ℕ)
    (l : List Email) (st : SyncState) (x : String)
    (h : x ∈ syncedIdsFor uid st) :
    x ∈ syncedIdsFor uid (l.foldl (processEmail uid prefs now) st) := by
  obtain ⟨t, ht⟩ := foldl_synced_append uid prefs now l st
  rw [mem_syncedIdsFor] at h ⊢
  obtain ⟨r, hr, hu, he⟩ := h
  exact ⟨r, by rw [ht]; exact List.mem_append_left _ hr, hu, he⟩

/-- Helper: a created result implies the quota check passed. -/
theorem createBill_created_lt (uid : String) (prefs : Option Prefs)
    (count fid now : ℕ) (req : BillRequest) (b : Bill)
    (h : createBill uid prefs count fid now req =
      CreateResult.created b) :
    count < effectiveLimit prefs := by
  by_contra hge
  rw [not_lt] at hge
  simp only [createBill] at h
  split_ifs at h

/-- Helper: once the quota is exhausted, an iteration adds no bill. -/
theorem processEmail_bills_frozen (uid : String) (prefs : Option Prefs)
    (now : ℕ) (st : SyncState) (e : Email)
    (h : effectiveLimit prefs ≤ activeCountFor uid st.bills) :
    (processEmail uid prefs now st e).bills = st.bills := by
  rcases processEmail_cases uid prefs now st e with
    ⟨p, b, _, _, _, hst⟩ | ⟨p, b, _, _, _, hc, hst⟩ | ⟨p, _, _, _, _, hst⟩ |
    hst
  · rw [hst]
  · exact absurd (createBill_created_lt uid prefs _ _ now _ b hc)
      (not_lt.mpr h)
  · rw [hst]
  · rw [hst]

/-- Helper: once the quota is exhausted, the rest of a run adds no
bill. -/
theorem foldl_bills_frozen (uid : String) (prefs : Option Prefs)
    (now : ℕ) :
    ∀ (l : List Email) (st : SyncState),
      effectiveLimit prefs ≤ activeCountFor uid st.bills →
      (l.foldl (processEmail uid prefs now) st).bills = st.bills := by
  intro l
  induction l with
  | nil => exact fun st _ => rfl
  | cons e0 rest ih =>
    intro st h
    rw [List.foldl_cons]
    have hb := processEmail_bills_frozen uid prefs now st e0 h
    have h2 : effectiveLimit prefs ≤
        activeCountFor uid (processEmail uid prefs now st e0).bills := by
      rw [hb]
      exact h
    rw [ih _ h2, hb]

/-- Helper: any candidate of a sync run whose id is still unrecorded
when the run ends was quota-skipped, and the skip configuration persists
to the final state: its candidate is accepted, no active bill matches
it there, and the quota is exhausted there. -/
theorem sync_leftover_skip (uid : String) (prefs : Option Prefs)
    (now : ℕ) :
    ∀ (l : List Email) (st : SyncState),
      (∀ e ∈ l, ∀ p, e.parsed = some p → wellFormedParsed p) →
      ∀ e ∈ l,
        e.id ∉ syncedIdsFor uid (l.foldl (processEmail uid prefs now) st) →
        SkipAt uid prefs (l.foldl (processEmail uid prefs now) st) e := by
  intro l
  induction l with
  | nil =>
    intro st _ e he
    cases he
  | cons e0 rest ih =>
    intro st hwf e he hnotin
    rw [List.foldl_cons] at hnotin ⊢
    rcases List.mem_cons.mp he with rfl | hrest
    · have hnotin0 : e.id ∉
          syncedIdsFor uid (processEmail uid prefs now st e) := by
        intro hmem
        exact hnotin (syncedIds_mono uid prefs now rest _ _ hmem)
      rcases processEmail_cases uid prefs now st e with
        ⟨p, b, hp, ha, hf, hst⟩ | ⟨p, b, hp, ha, hf, hc, hst⟩ |
        ⟨p, hp, ha, hf, hnc, hst⟩ | hst
      · exfalso
        apply hnotin0
        rw [hst, mem_syncedIdsFor]
        exact ⟨mkSyncedRow uid e (some b.id), by simp, rfl, rfl⟩
      · exfalso
        apply hnotin0
        rw [hst, mem_syncedIdsFor]
        exact ⟨mkSyncedRow uid e (some b.id), by simp, rfl, rfl⟩
      · have hwf0 := hwf e (List.mem_cons_self _ _) p hp
        have hch := createBill_accepted uid prefs
          (activeCountFor uid st.bills) st.nextId now e p ha hwf0.1 hwf0.2
        by_cases hlim : effectiveLimit prefs ≤ activeCountFor uid st.bills
        · rw [hst]
          have hfrozen : (rest.foldl (processEmail uid prefs now) st).bills =
              st.bills := foldl_bills_frozen uid prefs now rest st hlim
          refine ⟨p, hp, ha, ?_, ?_⟩
          · rw [hfrozen]
            exact hf
          · rw [hfrozen]
            exact hlim
        · exfalso
          rw [if_neg hlim] at hch
          exact hnc _ hch
      · exfalso
        apply hnotin0
        rw [hst, mem_syncedIdsFor]
        exact ⟨mkSyncedRow uid e none, by simp, rfl, rfl⟩
    · exact ih (processEmail uid prefs now st e0)
        (fun e2 h2 => hwf e2 (List.mem_cons_of_mem _ h2)) e hrest hnotin

/-- Helper: an iteration in the skip configuration leaves the state
entirely unchanged. -/
theorem processEmail_skip (uid : String) (prefs : Option Prefs)
    (now : ℕ) (st' : SyncState) (e : Email)
    (hskip : SkipAt uid prefs st' e)
    (hwf : ∀ p, e.parsed = some p → wellFormedParsed p) :
    processEmail uid prefs now st' e = st' := by
  obtain ⟨p, hp, ha, hf, hlim⟩ := hskip
  have hwfp := hwf p hp
  have hch := createBill_accepted uid prefs (activeCountFor uid st'.bills)
    st'.nextId now e p ha hwfp.1 hwfp.2
  rw [if_pos hlim] at hch
  simp [processEmail, hp, ha, hf, hch]

/-- Helper: a run over candidates that are all in the skip configuration
changes nothing. -/
theorem foldl_skip (uid : String) (prefs : Option Prefs) (now : ℕ) :
    ∀ (l : List Email) (st' : SyncState),
      (∀ e ∈ l, SkipAt uid prefs st' e ∧
        (∀ p, e.parsed = some p → wellFormedParsed p)) →
      l.foldl (processEmail uid prefs now) st' = st' := by
  intro l
  induction l with
  | nil => exact fun st' _ => rfl
  | cons e0 rest ih =>
    intro st' h
    have h0 := h e0 (List.mem_cons_self _ _)
    rw [List.foldl_cons, processEmail_skip uid prefs now st' e0 h0.1 h0.2]
    exact ih st' (fun e he => h e (List.mem_cons_of_mem _ he))

/-- C2: Sync idempotence.  After a first Gmail sync over a fixed set of
candidate emails (each with its fixed extraction result obeying the
extractor's output discipline), running the sync again with no new mail
leaves the entire state unchanged — in particular zero additional Bill
rows and zero additional SyncedEmail rows are created.  Every email
already recorded in `synced_emails` for the owner is dropped by the
freshness filter before extraction; the only candidates not recorded by
the first run are quota-skipped ones, and those are quota-skipped again
unchanged. -/
theorem C2_sync_idempotent (uid : String) (prefs : Option Prefs)
    (now now2 : ℕ) (st : SyncState) (emails : List Email)
    (hwf : ∀ e ∈ emails, ∀ p, e.parsed = some p → wellFormedParsed p) :
    runSync uid prefs now2 (runSync uid prefs now st emails) emails =
      runSync uid prefs now st emails := by
  show (emails.filter (fun e =>
      ¬ (syncedIdsFor uid (runSync uid prefs now st emails)).contains
        e.id)).foldl (processEmail uid prefs now2)
      (runSync uid prefs now st emails) =
    runSync uid prefs now st emails
  apply foldl_skip
  intro e he
  rw [List.mem_filter] at he
  obtain ⟨hmem, hfil⟩ := he
  simp only [decide_eq_true_eq] at hfil
  have hnotin1 : e.id ∉ syncedIdsFor uid (runSync uid prefs now st emails) :=
    fun hm => hfil (List.elem_eq_true_of_mem hm)
  have hnotin0 : e.id ∉ syncedIdsFor uid st := by
    intro hm
    exact hnotin1 (syncedIds_mono uid prefs now
      (emails.filter (fun e2 =>
        ¬ (syncedIdsFor uid st).contains e2.id)) st e.id hm)
  have hefil : e ∈ emails.filter (fun e2 =>
      ¬ (syncedIdsFor uid st).contains e2.id) := by
    rw [List.mem_filter]
    refine ⟨hmem, ?_⟩
    simp only [decide_eq_true_eq]
    intro hc
    exact hnotin0 (List.mem_of_elem_eq_true hc)
  refine ⟨?_, fun p hp => hwf e hmem p hp⟩
  exact sync_leftover_skip uid prefs now
    (emails.filter (fun e2 => ¬ (syncedIdsFor uid st).contains e2.id)) st
    (fun e2 h2 p hp => hwf e2 (List.mem_filter.mp h2).1 p hp) e hefil
    hnotin1

/-- Witness for C2 at a concrete input: one well-formed accepted
candidate synced into the empty state; the second run is a no-op. -/
theorem C2_sync_idempotent_witness :
    (∀ e ∈ [emW], ∀ p, e.parsed = some p → wellFormedParsed p) ∧
    runSync "u1" none 1 (runSync "u1" none 0 st0 [emW]) [emW] =
      runSync "u1" none 0 st0 [emW] := by
  have hwf : ∀ e ∈ [emW], ∀ p, e.parsed = some p → wellFormedParsed p := by
    intro e he p hp
    have he2 : e = emW := by
      simpa using he
    subst he2
    have hp2 : (some pW : Option ParsedBill) = some p := hp
    injection hp2 with h
    subst h
    refine ⟨by decide, ?_⟩
    intro q hq
    have hq2 : (some (7 : ℚ) : Option ℚ) = some q := hq
    injection hq2 with h2
    subst h2
    constructor <;> norm_num
  exact ⟨hwf, C2_sync_idempotent "u1" none 0 1 st0 [emW] hwf⟩
